import Mathlib

/-!
# SimpleJSON (`mq::json`): a shallow embedding of `json.cpp`

The development follows `src/SimpleJSON/json.cpp`.  A live handle (`json`) owns
exactly one node (`jvalue`) and copies are deep, so a handle is represented by the
tree of its node.  Results of operations that C++ leaves undefined (a failed
`assert` precondition, an out-of-range conversion, an access past the end of a
vector, a read through a dangling reference) are `none`.

Machine types: `int` is the signed 32-bit integer, `size_t` the unsigned 64-bit
integer, `double` the IEEE-754 binary64 number.

The development has two levels.  The value level has construction, typed
extraction, reading, copying and equality as functions of the trees, and the tree a
write through a key leaves when it has completed.  The pointer level has the node
objects with their addresses, the handles as pointers, `clone` with the allocation of
new objects, moving, and the release of nodes through `dispose_node` to
`json_flat_deleter`.  The statements `v[k] = x` and `v[i] = x` are at the pointer
level in full: they release the node they replace, allocate, and relocate the handles
of an array that grows beyond its storage, and each of these steps can keep the
statement from completing.
-/

namespace mq

/-! ## Machine numbers -/

/-- Smallest value of the 32-bit `int`. -/
def INT_MIN : Int := -2147483648

/-- Largest value of the 32-bit `int`. -/
def INT_MAX : Int := 2147483647

/-- The values of the C++ type `int`. -/
def is_int (i : Int) : Prop := INT_MIN ≤ i ∧ i ≤ INT_MAX

instance (i : Int) : Decidable (is_int i) := by
  unfold is_int
  exact inferInstance

/-- Number of values of `size_t`: arithmetic on `size_t` is modulo this number. -/
def SIZE_MOD : Nat := 2 ^ 64

/-- The C++ type `double`, by IEEE-754 class.  A finite number other than negative
zero is given by its exact value; positive zero is `fin 0`.  Every finite double is
a rational, so this type has all doubles (and further rationals no double has). -/
inductive Double where
  | nan
  | inf (neg : Bool)
  | negZero
  | fin (q : ℚ)
deriving DecidableEq

/-- Conversion `int` to `double`.  Every 32-bit integer is a double, so the
conversion is exact. -/
def Double.of_int (i : Int) : Double := Double.fin (i : ℚ)

/-- Conversion `double` to `int`: truncation toward zero; undefined (`none`) for a
NaN, an infinity and a truncated value outside the range of `int`. -/
def Double.to_int : Double → Option Int
  | .nan => none
  | .inf _ => none
  | .negZero => some 0
  | .fin q =>
    if is_int (Int.tdiv q.num q.den) then some (Int.tdiv q.num q.den) else none

/-- The comparison `==` of two doubles: a NaN equals nothing, the two zeros are
equal, other numbers are equal when they are the same number. -/
def Double.eq : Double → Double → Bool
  | .nan, _ => false
  | _, .nan => false
  | .inf a, .inf b => a == b
  | .negZero, .negZero => true
  | .negZero, .fin q => decide (q = 0)
  | .fin q, .negZero => decide (q = 0)
  | .fin a, .fin b => decide (a = b)
  | _, _ => false

/-! ## The node hierarchy and the handle -/

/-- Modelled from the spec: the discriminant `json::type`, an enumeration declared in
`json.h` (not among the sources), with the six values `json.cpp` uses. -/
inductive json.type where
  | NUL
  | BOOLEAN
  | NUMBER
  | STRING
  | OBJECT
  | ARRAY
deriving DecidableEq, Repr

/-- The node classes `jnull`, `jboolean`, `jint`, `jdouble`, `jstring`, `jobject`
and `jarray` with their payload `_v`.  Modelled from the spec for the two container
payloads, whose types `json::object` and `json::array` are declared in `json.h`
(not among the sources): an object is a mapping from string keys to handles with
unique keys, here the list of its entries; an array is the sequence of its
handles. -/
inductive jvalue where
  | jnull
  | jboolean (_v : Bool)
  | jint (_v : Int)
  | jdouble (_v : Double)
  | jstring (_v : String)
  | jobject (_v : List (String × jvalue))
  | jarray (_v : List jvalue)

/-- The handle class `json`: its one member is the owned node `_node`. -/
abbrev json := jvalue

/-- Modelled from the spec: the payload type `json::object`, declared in `json.h`
(not among the sources): a mapping from string keys to handles with unique keys,
represented by the list of its entries. -/
abbrev json.object := List (String × json)

/-- Modelled from the spec: the payload type `json::array`, declared in `json.h`
(not among the sources): an ordered, index-addressable sequence of handles. -/
abbrev json.array := List json

/-- The virtual `type()` of the node classes. -/
def jvalue.type : jvalue → json.type
  | .jnull => .NUL
  | .jboolean _ => .BOOLEAN
  | .jint _ => .NUMBER
  | .jdouble _ => .NUMBER
  | .jstring _ => .STRING
  | .jobject _ => .OBJECT
  | .jarray _ => .ARRAY

/-! ### Node factories -/

/-- The function `jvalue::null_instance`: the one static `jnull`. -/
def jvalue.null_instance : jvalue := .jnull

/-- The function `jvalue::true_instance`. -/
def jvalue.true_instance : jvalue := .jboolean true

/-- The function `jvalue::false_instance`. -/
def jvalue.false_instance : jvalue := .jboolean false

/-- The function `jvalue::int_instance`. -/
def jvalue.int_instance (i : Int) : jvalue := .jint i

/-- The function `jvalue::double_instance`. -/
def jvalue.double_instance (d : Double) : jvalue := .jdouble d

/-- The function `jvalue::string_instance`. -/
def jvalue.string_instance (s : String) : jvalue := .jstring s

/-- The function `jvalue::object_instance`. -/
def jvalue.object_instance (s : json.object) : jvalue := .jobject s

/-- The function `jvalue::array_instance`. -/
def jvalue.array_instance (s : json.array) : jvalue := .jarray s

/-! ### Constructors of the handle -/

/-- The constructor `json::json(std::nullptr_t)`. -/
def json.json_nullptr : json := jvalue.null_instance

/-- The constructor `json::json()`, which delegates to `json(nullptr)`. -/
def json.json_default : json := json.json_nullptr

/-- The constructor `json::json(int d)`. -/
def json.json_int (d : Int) : json := jvalue.int_instance d

/-- The constructor `json::json(double d)`. -/
def json.json_double (d : Double) : json := jvalue.double_instance d

/-- The constructors `json::json(const std::string&)`, `json(std::string&&)` and
`json(const char*)`. -/
def json.json_string (s : String) : json := jvalue.string_instance s

/-- The constructors `json::json(const object&)` and `json(object&&)`. -/
def json.json_object (r : json.object) : json := jvalue.object_instance r

/-- The constructors `json::json(const array&)` and `json(array&&)`. -/
def json.json_array (r : json.array) : json := jvalue.array_instance r

/-- The constructor `json::json(bool b)`. -/
def json.json_bool (b : Bool) : json :=
  if b then jvalue.true_instance else jvalue.false_instance

/-- The static member `json::null`, defined by `json json::null{}`. -/
def json.null : json := json.json_default

/-! ### Discriminant queries -/

/-- The method `json::value_type`. -/
def json.value_type (self : json) : json.type := jvalue.type self

/-- The method `json::is_object`. -/
def json.is_object (self : json) : Bool := decide (jvalue.type self = .OBJECT)

/-- The method `json::is_array`. -/
def json.is_array (self : json) : Bool := decide (jvalue.type self = .ARRAY)

/-- The method `json::is_number`. -/
def json.is_number (self : json) : Bool := decide (jvalue.type self = .NUMBER)

/-- The method `json::is_string`. -/
def json.is_string (self : json) : Bool := decide (jvalue.type self = .STRING)

/-- The method `json::is_boolean`. -/
def json.is_boolean (self : json) : Bool := decide (jvalue.type self = .BOOLEAN)

/-- The method `json::is_null`. -/
def json.is_null (self : json) : Bool := decide (jvalue.type self = .NUL)

/-! ### Unsafe accessors of the node and typed extraction -/

/-- The virtual `get_int` of `jint` and `jdouble`; `none` on a node that is no
number. -/
def jvalue.get_int : jvalue → Option Int
  | .jint _v => some _v
  | .jdouble _v => Double.to_int _v
  | _ => none

/-- The virtual `get_double` of `jint` and `jdouble`; `none` on a node that is no
number. -/
def jvalue.get_double : jvalue → Option Double
  | .jint _v => some (Double.of_int _v)
  | .jdouble _v => some _v
  | _ => none

/-- The method `jvalue::get_bool_unsafe`; `none` when the precondition fails. -/
def jvalue.get_bool_unsafe : jvalue → Option Bool
  | .jboolean _v => some _v
  | _ => none

/-- The method `jvalue::get_int_unsafe`. -/
def jvalue.get_int_unsafe (self : jvalue) : Option Int := jvalue.get_int self

/-- The method `jvalue::get_double_unsafe`. -/
def jvalue.get_double_unsafe (self : jvalue) : Option Double := jvalue.get_double self

/-- The method `jvalue::get_string_unsafe`; `none` when the precondition fails. -/
def jvalue.get_string_unsafe : jvalue → Option String
  | .jstring _v => some _v
  | _ => none

/-- The method `json::as_bool`. -/
def json.as_bool (self : json) : Option Bool :=
  if json.value_type self ≠ .BOOLEAN then some false
  else jvalue.get_bool_unsafe self

/-- The method `json::as_int`. -/
def json.as_int (self : json) : Option Int :=
  if json.value_type self ≠ .NUMBER then some 0
  else jvalue.get_int_unsafe self

/-- The method `json::as_double`; its `return 0` converts the `int` 0. -/
def json.as_double (self : json) : Option Double :=
  if json.value_type self ≠ .NUMBER then some (Double.of_int 0)
  else jvalue.get_double_unsafe self

/-- The object a returned `const std::string&` is bound to: the payload of a
string node, which lives as long as the node, or a temporary `std::string` made by
the `return` statement, which is destroyed when that statement ends. -/
inductive string_ref where
  | payload (s : String)
  | temporary (s : String)
deriving DecidableEq, Repr

/-- The string the caller reads through a returned reference; `none` for a
reference to a destroyed temporary (a dangling reference). -/
def string_ref.read : string_ref → Option String
  | .payload s => some s
  | .temporary _ => none

/-- The method `json::as_string`, of return type `const std::string&`.  In
`return ""` the literal is converted to a temporary `std::string` and the
reference returned is bound to that temporary. -/
def json.as_string (self : json) : Option string_ref :=
  if json.value_type self ≠ .STRING then some (string_ref.temporary "")
  else (jvalue.get_string_unsafe self).map string_ref.payload

/-! ### Copying and assignment -/

mutual
/-- The virtual `clone()` of the node classes: `jnull` returns itself, every other
class returns a new node built from a copy of its payload. -/
def jvalue.clone : jvalue → jvalue
  | .jnull => .jnull
  | .jboolean _v => .jboolean _v
  | .jint _v => .jint _v
  | .jdouble _v => .jdouble _v
  | .jstring _v => .jstring _v
  | .jobject _v => .jobject (object_copy _v)
  | .jarray _v => .jarray (array_copy _v)
/-- Copy construction of a `json::object`: every entry is copied, its handle by the
copy constructor of `json`, which clones the node. -/
def object_copy : List (String × jvalue) → List (String × jvalue)
  | [] => []
  | (k, v) :: t => (k, jvalue.clone v) :: object_copy t
/-- Copy construction of a `json::array`, element by element. -/
def array_copy : List jvalue → List jvalue
  | [] => []
  | v :: t => jvalue.clone v :: array_copy t
end

/-- The copy constructor `json::json(const json& r)`. -/
def json.json_copy (r : json) : json := jvalue.clone r

/-- The copy assignment `json::operator=(const json& r)` from another handle, at the
value level: the tree of `*this` when the assignment has completed.  The call
`dispose_node(_node)` that comes first acts on the reclaimer, which the value level
does not have, and need not return: the assignment with its release is `copy_assign`,
at the pointer level. -/
def json.assign (_self r : json) : json := jvalue.clone r

/-- The move assignment `json::operator=(json&& r)` from another handle, at the value
level: the tree of `*this` when the assignment has completed, which is the tree of
`r`.  The call `dispose_node(_node)` that comes first acts on the reclaimer, which the
value level does not have, and need not return: the assignment with its release is
`move_assign`, at the pointer level. -/
def json.assign_move (_self r : json) : json := r

/-! ### The containers

Modelled from the spec: `json::object` and `json::array` are declared in `json.h`,
which is not among the sources.  The operations of the object are those of a
mapping with unique keys (`find`, `operator[]` that inserts a default-constructed
handle for an absent key, writing through the reference it returns, `size`, `==`
member by member); those of the array are those of a sequence (`size`, `arr[i]`,
`insert` of copies at the end, `==` element by element, and `array{n}`, the array
sized to `n` default handles). -/

/-- Modelled from the spec: `obj.find(key)`, the handle stored under `key`. -/
def object_find : json.object → String → Option json
  | [], _ => none
  | (k, v) :: t, key => if k = key then some v else object_find t key

/-- Modelled from the spec: the map after `_v[key]`: an absent key gets an entry
with a default-constructed handle, a present key leaves the map as it is.  The
place of the new entry in the list has no meaning for the mapping. -/
def object_subscript (m : json.object) (key : String) : json.object :=
  match object_find m key with
  | some _ => m
  | none => m ++ [(key, json.json_default)]

/-- Modelled from the spec: the map after `f` has been applied through the
reference to the handle stored under `key`. -/
def object_write (f : json → json) (key : String) : json.object → json.object
  | [] => []
  | (k, v) :: t => if k = key then (k, f v) :: t else (k, v) :: object_write f key t

/-! ### Indexing -/

/-- The method `jvalue::get_value_unsafe(const std::string&)`; `none` when the
node is no object. -/
def jvalue.get_value_unsafe (self : jvalue) (key : String) : Option json :=
  match self with
  | .jobject _v =>
    match object_find _v key with
    | none => some json.null
    | some second => some second
  | _ => none

/-- Modelled from the spec: the method `jvalue::get_value_unsafe(size_t)`, which
`json.cpp` calls and does not define: the element `i` of the array, the Null
handle when `i` is out of range; `none` when the node is no array. -/
def jvalue.get_value_unsafe_index (self : jvalue) (i : Nat) : Option json :=
  match self with
  | .jarray _v =>
    match _v.get? i with
    | none => some json.null
    | some x => some x
  | _ => none

/-- The method `json::operator[](const std::string&) const`: the state of `*this`
after the call and the handle the returned reference is bound to. -/
def json.subscript_key_const (self : json) (i : String) : json × Option json :=
  if json.value_type self = .OBJECT then (self, jvalue.get_value_unsafe self i)
  else (self, some json.null)

/-- The method `json::operator[](size_t) const`: the state of `*this` after the
call and the handle the returned reference is bound to. -/
def json.subscript_index_const (self : json) (i : Nat) : json × Option json :=
  if json.value_type self = .ARRAY then (self, jvalue.get_value_unsafe_index self i)
  else (self, some json.null)

/-- The method `json::operator[](const std::string&)`, at the value level: the tree
of `*this` when the call has returned.  The reference returned is bound to the entry
of key `i` of that tree.  The method with the release of the old node is
`json.operator_subscript_key`, at the pointer level. -/
def json.subscript_key (self : json) (i : String) : json :=
  match self with
  | .jobject _v => .jobject (object_subscript _v i)
  | _ =>
    match json.assign_move self (json.json_object []) with
    | .jobject _v => .jobject (object_subscript _v i)
    | other => other

/-- The handle the reference returned by `json::operator[](const std::string&)`
is bound to. -/
def json.subscript_key_ref (self : json) (i : String) : Option json :=
  match json.subscript_key self i with
  | .jobject _v => object_find _v i
  | _ => none

/-- The tree of `*this` after `f` has been applied to the handle behind the
reference returned by `(*this)[i]`, for a key `i`, when both have completed. -/
def json.write_key (self : json) (i : String) (f : json → json) : json :=
  match json.subscript_key self i with
  | .jobject _v => .jobject (object_write f i _v)
  | other => other

/-- The statement `v[i] = x` for a key `i` and another handle `x`, by copy
assignment: the tree of `v` when the statement has completed. -/
def json.assign_key (self : json) (i : String) (x : json) : json :=
  json.write_key self i (fun slot => json.assign slot x)

/-- The statement `v[i] = std::move(x)` for a key `i`, also `v[i] = x` with a
temporary `x`, by move assignment: the tree of `v` when the statement has
completed. -/
def json.assign_move_key (self : json) (i : String) (x : json) : json :=
  json.write_key self i (fun slot => json.assign_move slot x)

/-! ### Equality -/

mutual
/-- The virtual `equals_to_unsafe` of the node classes.  Its precondition, that
both nodes have the same discriminant, is the caller's; outside it the result is
`false` here.  `jnull` compares addresses, and there is one `jnull` object (the
static of `null_instance`, which `clone` returns), so two `jnull` are the same
object.  The numbers compare `get_double()`. -/
def jvalue.equals_to_unsafe : jvalue → jvalue → Bool
  | .jnull, .jnull => true
  | .jboolean a, .jboolean b => a == b
  | .jint a, .jint b => Double.eq (Double.of_int a) (Double.of_int b)
  | .jint a, .jdouble b => Double.eq (Double.of_int a) b
  | .jdouble a, .jint b => Double.eq a (Double.of_int b)
  | .jdouble a, .jdouble b => Double.eq a b
  | .jstring a, .jstring b => a == b
  | .jobject a, .jobject b => a.length == b.length && object_included a b
  | .jarray a, .jarray b => array_eq a b
  | _, _ => false
/-- Modelled from the spec: `==` of two `json::array`: same size and equal
elements, position by position, under `operator==` of the handles (written out:
same discriminant and `equals_to_unsafe`). -/
def array_eq : List jvalue → List jvalue → Bool
  | [], [] => true
  | x :: xs, y :: ys =>
    (decide (jvalue.type x = jvalue.type y) && jvalue.equals_to_unsafe x y) && array_eq xs ys
  | _, _ => false
/-- Modelled from the spec: the member-wise part of `==` of two `json::object`:
every entry of the left map has its key in the right map, with an equal handle
under `operator==` of the handles. -/
def object_included : List (String × jvalue) → List (String × jvalue) → Bool
  | [], _ => true
  | (k, v) :: t, b =>
    (match object_find b k with
     | none => false
     | some w => decide (jvalue.type v = jvalue.type w) && jvalue.equals_to_unsafe v w)
    && object_included t b
end

/-- The function `operator==(const json& l, const json& r)`. -/
def json.eq (l r : json) : Bool :=
  decide (jvalue.type l = jvalue.type r) && jvalue.equals_to_unsafe l r

/-- The function `operator!=(const json& l, const json& r)`. -/
def json.ne (l r : json) : Bool := !(json.eq l r)

/-- Unique keys: the invariant of the payload of an object. -/
def object_wf (m : json.object) : Prop := (m.map Prod.fst).Nodup

instance (m : json.object) : Decidable (object_wf m) := by
  unfold object_wf
  exact inferInstance

/-! ### Predicates and paths used to state the properties -/

mutual
/-- No NaN: no `jdouble` of the tree, at any depth, holds a NaN. -/
def jvalue.nan_free : jvalue → Bool
  | .jdouble d => decide (d ≠ Double.nan)
  | .jobject m => object_nan_free m
  | .jarray a => array_nan_free a
  | _ => true
/-- No NaN in the handles of an object payload. -/
def object_nan_free : List (String × jvalue) → Bool
  | [] => true
  | (_, v) :: t => jvalue.nan_free v && object_nan_free t
/-- No NaN in the handles of an array payload. -/
def array_nan_free : List jvalue → Bool
  | [] => true
  | v :: t => jvalue.nan_free v && array_nan_free t
end

mutual
/-- Unique keys at every depth: each object of the tree has unique keys, as every
`json::object` has. -/
def jvalue.keys_unique : jvalue → Bool
  | .jobject m => decide ((m.map Prod.fst).Nodup) && object_keys_unique m
  | .jarray a => array_keys_unique a
  | _ => true
/-- Unique keys at every depth of the handles of an object payload. -/
def object_keys_unique : List (String × jvalue) → Bool
  | [] => true
  | (_, v) :: t => jvalue.keys_unique v && object_keys_unique t
/-- Unique keys at every depth of the handles of an array payload. -/
def array_keys_unique : List jvalue → Bool
  | [] => true
  | v :: t => jvalue.keys_unique v && array_keys_unique t
end

/-- One step into a container: through a key of an object or an index of an
array. -/
inductive path_step where
  | key (k : String)
  | index (i : Nat)

/-- The nested value of `v` at the end of a path of keys and indices, if the path
exists in `v`. -/
def jvalue.descend : jvalue → List path_step → Option jvalue
  | v, [] => some v
  | .jobject m, .key k :: p =>
    match object_find m k with
    | some x => jvalue.descend x p
    | none => none
  | .jarray a, .index i :: p =>
    match a.get? i with
    | some x => jvalue.descend x p
    | none => none
  | _, _ :: _ => none

/-! ## Node objects, handles and the reclaimer (pointer level)

At this level a node is an object at an address, a handle is the pointer `_node`,
and the reclaimer `json_flat_deleter` keeps the pointers it was handed.  A pointer is
given by the object it points to; the objects that a container payload points to
through its handles are given in the payload. -/

/-- A `jvalue` object in memory: its address, its class and its payload.  The
handles held by a container payload are live, each pointing to the node object given
in its place. -/
inductive node where
  | jnull (addr : Nat)
  | jboolean (addr : Nat) (_v : Bool)
  | jint (addr : Nat) (_v : Int)
  | jdouble (addr : Nat) (_v : Double)
  | jstring (addr : Nat) (_v : String)
  | jobject (addr : Nat) (_v : List (String × node))
  | jarray (addr : Nat) (_v : List node)

/-- The address of a node object. -/
def node.addr : node → Nat
  | .jnull a => a
  | .jboolean a _ => a
  | .jint a _ => a
  | .jdouble a _ => a
  | .jstring a _ => a
  | .jobject a _ => a
  | .jarray a _ => a

/-- The virtual `type()` of a node object. -/
def node.type : node → json.type
  | .jnull _ => .NUL
  | .jboolean _ _ => .BOOLEAN
  | .jint _ _ => .NUMBER
  | .jdouble _ _ => .NUMBER
  | .jstring _ _ => .STRING
  | .jobject _ _ => .OBJECT
  | .jarray _ _ => .ARRAY

/-- The node objects that the handles of a container payload point to, in the order
of the payload. -/
def node.children : node → List node
  | .jobject _ m => m.map Prod.snd
  | .jarray _ a => a
  | _ => []

mutual
/-- The tree of a node object: the node of the value level, without addresses. -/
def node.value : node → jvalue
  | .jnull _ => .jnull
  | .jboolean _ v => .jboolean v
  | .jint _ v => .jint v
  | .jdouble _ v => .jdouble v
  | .jstring _ v => .jstring v
  | .jobject _ m => .jobject (object_values m)
  | .jarray _ a => .jarray (array_values a)
/-- The trees of the entries of an object payload. -/
def object_values : List (String × node) → List (String × jvalue)
  | [] => []
  | (k, v) :: t => (k, node.value v) :: object_values t
/-- The trees of the elements of an array payload. -/
def array_values : List node → List jvalue
  | [] => []
  | v :: t => node.value v :: array_values t
end

mutual
/-- The addresses of all node objects of a tree. -/
def node.addrs : node → List Nat
  | .jobject a m => a :: object_addrs m
  | .jarray a l => a :: array_addrs l
  | n => [node.addr n]
/-- The addresses of all node objects under an object payload. -/
def object_addrs : List (String × node) → List Nat
  | [] => []
  | (_, v) :: t => node.addrs v ++ object_addrs t
/-- The addresses of all node objects under an array payload. -/
def array_addrs : List node → List Nat
  | [] => []
  | v :: t => node.addrs v ++ array_addrs t
end

mutual
/-- The addresses of the node objects of a tree that are not `jnull` objects. -/
def node.owned_addrs : node → List Nat
  | .jnull _ => []
  | .jobject a m => a :: object_owned_addrs m
  | .jarray a l => a :: array_owned_addrs l
  | n => [node.addr n]
/-- The addresses of the node objects under an object payload that are not `jnull`
objects. -/
def object_owned_addrs : List (String × node) → List Nat
  | [] => []
  | (_, v) :: t => node.owned_addrs v ++ object_owned_addrs t
/-- The addresses of the node objects under an array payload that are not `jnull`
objects. -/
def array_owned_addrs : List node → List Nat
  | [] => []
  | v :: t => node.owned_addrs v ++ array_owned_addrs t
end

/-- Address of the static `jnull` of `jvalue::null_instance`. -/
def NULL_ADDR : Nat := 0

/-- Address of the static `jboolean` of `jvalue::true_instance`. -/
def TRUE_ADDR : Nat := 1

/-- Address of the static `jboolean` of `jvalue::false_instance`. -/
def FALSE_ADDR : Nat := 2

/-- First address that `new` can return: the statics are below it. -/
def HEAP_BASE : Nat := 3

/-- The function `jvalue::null_instance`, as a pointer: the one static `jnull`. -/
def node.null_instance : node := .jnull NULL_ADDR

/-- The function `jvalue::true_instance`, as a pointer: the static `jboolean{true}`. -/
def node.true_instance : node := .jboolean TRUE_ADDR true

/-- The function `jvalue::false_instance`, as a pointer: the static
`jboolean{false}`. -/
def node.false_instance : node := .jboolean FALSE_ADDR false

mutual
/-- The virtual `clone()`, as a pointer: `next` is the address the next `new`
returns; the result is the pointer returned and the next address after the call.
`jnull::clone` returns `this`; every other class returns `new` of its class, built
from a copy of its payload. -/
def node.clone : node → Nat → node × Nat
  | .jnull a, next => (.jnull a, next)
  | .jboolean _ v, next => (.jboolean next v, next + 1)
  | .jint _ v, next => (.jint next v, next + 1)
  | .jdouble _ v, next => (.jdouble next v, next + 1)
  | .jstring _ v, next => (.jstring next v, next + 1)
  | .jobject _ m, next => (.jobject next (object_clone m (next + 1)).1, (object_clone m (next + 1)).2)
  | .jarray _ a, next => (.jarray next (array_clone a (next + 1)).1, (array_clone a (next + 1)).2)
/-- Copy construction of an object payload: each handle is copy constructed, which
clones the node it points to. -/
def object_clone : List (String × node) → Nat → List (String × node) × Nat
  | [], next => ([], next)
  | (k, v) :: t, next =>
    ((k, (node.clone v next).1) :: (object_clone t (node.clone v next).2).1,
      (object_clone t (node.clone v next).2).2)
/-- Copy construction of an array payload, element by element. -/
def array_clone : List node → Nat → List node × Nat
  | [], next => ([], next)
  | v :: t, next =>
    ((node.clone v next).1 :: (array_clone t (node.clone v next).2).1,
      (array_clone t (node.clone v next).2).2)
end

/-- The state the reclaimer acts on: `jvalues`, the buffer of the one
`json_flat_deleter` instance, and `freed`, the addresses of the objects that
`delete` has been called on, in the order of the calls. -/
structure memory where
  jvalues : List node
  freed : List Nat

/-- How a call ends: it returns, or it calls `delete` on an object that `delete` was
called on before (undefined behaviour, with the state at that call), or it reads
`jvalues[i]` past the end, or the evaluation here has no fuel left. -/
inductive outcome where
  | returned (m : memory)
  | double_delete (addr : Nat) (m : memory)
  | out_of_range (m : memory)
  | out_of_fuel

/-- The buffer after a call that returned. -/
def outcome.jvalues : outcome → Option (List node)
  | .returned m => some m.jvalues
  | _ => none

/-- The addresses `delete` was called on, in call order, up to the end of the call
(for a double delete: up to, without, the second `delete` of the object). -/
def outcome.freed : outcome → Option (List Nat)
  | .returned m => some m.freed
  | .double_delete _ m => some m.freed
  | .out_of_range m => some m.freed
  | .out_of_fuel => none

/-- The address of an object that `delete` was called on a second time. -/
def outcome.deleted_twice : outcome → Option Nat
  | .double_delete a _ => some a
  | _ => none

/-- The discriminants for which `json::dispose_node` calls `add_value`. -/
def reclaimable (t : json.type) : Bool :=
  match t with
  | .OBJECT => true
  | .ARRAY => true
  | .STRING => true
  | .NUMBER => true
  | _ => false

mutual
/-- The method `json_flat_deleter::add_value`.  The first argument of this and the
following functions is the fuel: every call takes one unit. -/
def json_flat_deleter.add_value : Nat → node → memory → outcome
  | 0, _, _ => .out_of_fuel
  | fuel + 1, v, m =>
    if (m.jvalues ++ [v]).length > 16 then
      json_flat_deleter.start_delete fuel { m with jvalues := m.jvalues ++ [v] }
    else .returned { m with jvalues := m.jvalues ++ [v] }
/-- The method `json_flat_deleter::start_delete`. -/
def json_flat_deleter.start_delete : Nat → memory → outcome
  | 0, _ => .out_of_fuel
  | fuel + 1, m => json_flat_deleter.start_delete_loop fuel 0 m
/-- The loop `while (i != jvalues.size())` of `start_delete`, from the index `i`,
followed by `jvalues.clear()`. -/
def json_flat_deleter.start_delete_loop : Nat → Nat → memory → outcome
  | 0, _, _ => .out_of_fuel
  | fuel + 1, i, m =>
    if i ≠ m.jvalues.length then
      match m.jvalues.get? i with
      | none => .out_of_range m
      | some p =>
        match delete_node fuel p m with
        | .returned m2 => json_flat_deleter.start_delete_loop fuel (i + 1) m2
        | other => other
    else .returned { m with jvalues := [] }
/-- Modelled from the spec: the expression `delete p` on a node object.  The
destructor of `jvalue` is declared in `json.h` (not among the sources); by the spec
deleting a container destroys its child handles, each of which releases its node.
A second `delete` of an object is undefined. -/
def delete_node : Nat → node → memory → outcome
  | 0, _, _ => .out_of_fuel
  | fuel + 1, p, m =>
    if node.addr p ∈ m.freed then .double_delete (node.addr p) m
    else destroy_handles fuel (node.children p) { m with freed := m.freed ++ [node.addr p] }
/-- The destructors `json::~json` of the handles of a destroyed payload, in the order
of the payload: each is `dispose_node(_node)`. -/
def destroy_handles : Nat → List node → memory → outcome
  | 0, _, _ => .out_of_fuel
  | _ + 1, [], m => .returned m
  | fuel + 1, c :: t, m =>
    match json.dispose_node fuel (some c) m with
    | .returned m2 => destroy_handles fuel t m2
    | other => other
/-- The method `json::dispose_node`; `none` is the null pointer. -/
def json.dispose_node : Nat → Option node → memory → outcome
  | 0, _, _ => .out_of_fuel
  | _ + 1, none, m => .returned m
  | fuel + 1, some n, m =>
    if reclaimable (node.type n) then json_flat_deleter.add_value fuel n m
    else .returned m
end

/-- The handle class `json` at the pointer level: the member `_node`, `none` for
the null pointer. -/
structure handle where
  _node : Option node

/-- The destructor `json::~json`. -/
def handle.destroy (fuel : Nat) (self : handle) (m : memory) : outcome :=
  json.dispose_node fuel self._node m

/-- The constructor `json::json(bool b)`, as a pointer. -/
def handle.json_bool (b : Bool) : handle :=
  ⟨some (if b then node.true_instance else node.false_instance)⟩

/-- The constructor `json::json(std::nullptr_t)`, as a pointer. -/
def handle.json_nullptr : handle := ⟨some node.null_instance⟩

/-- The copy constructor `json::json(const json& r)`, as a pointer: the new handle
and the next address; `none` when `r._node` is the null pointer. -/
def handle.json_copy (r : handle) (next : Nat) : Option (handle × Nat) :=
  match r._node with
  | none => none
  | some n => some (⟨some (node.clone n next).1⟩, (node.clone n next).2)

/-- The copy assignment `json::operator=(const json& r)`, as a pointer: the handle
`*this`, the next address and the outcome of the release; `this_is_r` tells whether
`this == std::addressof(r)`.  `none` when `r._node` is the null pointer. -/
def handle.assign (fuel : Nat) (this_is_r : Bool) (self r : handle) (next : Nat)
    (m : memory) : Option (handle × Nat × outcome) :=
  if this_is_r then some (self, next, .returned m)
  else
    match r._node with
    | none => none
    | some n =>
      some (⟨some (node.clone n next).1⟩, (node.clone n next).2,
        json.dispose_node fuel self._node m)

/-- The move constructor `json::json(json&& r)`: the new handle and `r` after the
call.  Its body is empty. -/
def handle.json_move (r : handle) : handle × handle :=
  (⟨r._node⟩, r)

/-- The move assignment `json::operator=(json&& r)` for `this != std::addressof(r)`:
the handle `*this`, `r` after the call and the outcome of the release. -/
def handle.assign_move (fuel : Nat) (self r : handle) (m : memory) :
    handle × handle × outcome :=
  (⟨r._node⟩, ⟨none⟩, json.dispose_node fuel self._node m)

/-- The destruction of two handles, the first one first; `out_of_fuel` is not
reached with fuel for each. -/
def destroy_both (fuel : Nat) (a b : handle) (m : memory) : outcome :=
  match handle.destroy fuel a m with
  | .returned m2 => handle.destroy fuel b m2
  | other => other

/-- The destruction of a sequence of handles, in order. -/
def destroy_all (fuel : Nat) : List handle → memory → outcome
  | [], m => .returned m
  | h :: t, m =>
    match handle.destroy fuel h m with
    | .returned m2 => destroy_all fuel t m2
    | other => other

/-! ### The mutable `operator[]`, at the pointer level

A statement `v[k] = x` or `v[i] = x` releases every node it replaces through
`dispose_node`, allocates the nodes it adds and, when an array grows beyond its
storage, relocates the handles of the array.  An action through the reference that
`operator[]` returns takes the node the handle behind the reference points to, the
next address and the state of the reclaimer. -/

/-- How a statement ends: it completes, with a value, the next address and the state
of the reclaimer; or a release made by it does not return (`stopped`, with the outcome
of the release); or it reads a node object that `delete` was called on; or the final
`arr[i]` has no element `i`; or an array cannot be allocated (`std::length_error` or
`std::bad_alloc` is thrown). -/
inductive written (α : Type) where
  | done (value : α) (next : Nat) (m : memory)
  | stopped (o : outcome)
  | deleted_read (addr : Nat)
  | no_element (m : memory)
  | no_memory

/-- The value of a completed statement, changed by `g`. -/
def written.map {α β : Type} (g : α → β) : written α → written β
  | .done v next m => .done (g v) next m
  | .stopped o => .stopped o
  | .deleted_read a => .deleted_read a
  | .no_element m => .no_element m
  | .no_memory => .no_memory

/-- The value of a statement that completed. -/
def written.value {α : Type} : written α → Option α
  | .done v _ _ => some v
  | _ => none

/-- The buffer of the reclaimer after a statement that completed. -/
def written.jvalues {α : Type} : written α → Option (List node)
  | .done _ _ m => some m.jvalues
  | _ => none

/-- The addresses `delete` was called on up to the end of the statement. -/
def written.freed {α : Type} : written α → Option (List Nat)
  | .done _ _ m => some m.freed
  | .stopped o => outcome.freed o
  | .no_element m => some m.freed
  | _ => none

/-- The address of an object that a release of the statement passed to `delete` a
second time. -/
def written.deleted_twice {α : Type} : written α → Option Nat
  | .stopped o => outcome.deleted_twice o
  | _ => none

/-- The address of a deleted node object that the statement read. -/
def written.read_deleted {α : Type} : written α → Option Nat
  | .deleted_read a => some a
  | _ => none

/-- The statement ended at an `arr[i]` without an element `i`. -/
def written.is_no_element {α : Type} : written α → Bool
  | .no_element _ => true
  | _ => false

/-- The statement ended because an array could not be allocated. -/
def written.is_no_memory {α : Type} : written α → Bool
  | .no_memory => true
  | _ => false

/-- The first node object of a tree that `delete` has been called on. -/
def node.first_deleted (m : memory) (x : node) : Option Nat :=
  (node.addrs x).find? (fun a => decide (a ∈ m.freed))

/-- The copy assignment `slot = x` from another handle, `json::operator=(const json&)`,
as an action: `dispose_node(_node)` reads the discriminant of the node of the slot
and releases it, then the slot points to `x._node->clone()`, which reads every node
object of `x`. -/
def copy_assign (fuel : Nat) (x : node) : node → Nat → memory → written node :=
  fun slot next m =>
    if node.addr slot ∈ m.freed then .deleted_read (node.addr slot)
    else
      match json.dispose_node fuel (some slot) m with
      | .returned m2 =>
        match node.first_deleted m2 x with
        | some a => .deleted_read a
        | none => .done (node.clone x next).1 (node.clone x next).2 m2
      | other => .stopped other

/-- The move assignment `slot = std::move(x)`, also `slot = x` with a temporary `x`,
`json::operator=(json&&)`, as an action: `dispose_node(_node)` reads the discriminant
of the node of the slot and releases it, then the slot points to the node of `x`. -/
def move_assign (fuel : Nat) (x : node) : node → Nat → memory → written node :=
  fun slot next m =>
    if node.addr slot ∈ m.freed then .deleted_read (node.addr slot)
    else
      match json.dispose_node fuel (some slot) m with
      | .returned m2 => .done x next m2
      | other => .stopped other

/-- Modelled from the spec: the payload of an object, a `json::object` (declared in
`json.h`, not among the sources), after `_v[key]` and the action `f` through the
reference returned.  An absent key first gets a default-constructed handle, which
points to the static `jnull`.  A map keeps its entries where they are, so no handle
is moved or destroyed. -/
def object_write_through (f : node → Nat → memory → written node) (key : String) :
    List (String × node) → Nat → memory → written (List (String × node))
  | [], next, m => (f node.null_instance next m).map (fun n => [(key, n)])
  | (k, v) :: t, next, m =>
    if k = key then (f v next m).map (fun n => (k, n) :: t)
    else (object_write_through f key t next m).map (fun r => (k, v) :: r)

/-- The method `json::operator[](const std::string&)` followed by the action `f`
through the reference returned: the node `*this` points to afterwards.
`value_type()` reads the node of `*this`.  An object is changed in place; for any
other node, `*this = object{}` allocates a new object and its `operator=(json&&)`
releases the old node. -/
def json.operator_subscript_key (fuel : Nat) (self : node) (i : String)
    (f : node → Nat → memory → written node) (next : Nat) (m : memory) : written node :=
  if node.addr self ∈ m.freed then .deleted_read (node.addr self)
  else
    match self with
    | .jobject a _v => (object_write_through f i _v next m).map (node.jobject a)
    | _ =>
      match json.dispose_node fuel (some self) m with
      | .returned m2 => (object_write_through f i [] (next + 1) m2).map (node.jobject next)
      | other => .stopped other

/-- No array of this many handles exists where `size_t` has 64 bits: a handle takes
at least the 8 bytes of its pointer `_node`. -/
def ARRAY_LIMIT : Nat := 2 ^ 61

/-- An array of `n` handles can be allocated in a run whose memory has room for an
array of `cap` handles. -/
def can_allocate (cap n : Nat) : Bool := decide (n ≤ cap ∧ n < ARRAY_LIMIT)

/-- Modelled from the spec: the payload of an array, a `json::array` (declared in
`json.h`, not among the sources), after the action `f` through the reference
`arr[i]`; there is no element `i` from the size of the array on. -/
def array_write_through (f : node → Nat → memory → written node) :
    Nat → List node → Nat → memory → written (List node)
  | _, [], _, m => .no_element m
  | 0, v :: t, next, m => (f v next m).map (fun n => n :: t)
  | n + 1, v :: t, next, m => (array_write_through f n t next m).map (fun r => v :: r)

/-- Modelled from the spec: a `json::array` (declared in `json.h`, not among the
sources) is a sequence of handles in contiguous storage, which `insert` replaces by
larger storage when the handles do not fit: each handle is move constructed into the
new storage and the old one is destroyed.  These are the nodes that the old handles
point to after `json::json(json&&)`, which their destructors release. -/
def relocated_sources (arr : List node) : List node :=
  (arr.map (fun n => (handle.json_move ⟨some n⟩).2)).filterMap handle._node

/-- The method `json::operator[](size_t)` followed by the action `f` through the
reference returned: the node `*this` points to afterwards.  The index `i` is a
`size_t`; `cap` is the number of handles an array can have in this run and `spare`
the number of handles the storage of the array has room for beyond its size.
`value_type()` reads the node of `*this`.  An array with `arr.size() > i` is changed
in place.  Otherwise `arr.insert(arr.end(), i - arr.size() + 1, json{})` appends
copies of a default handle, which point to the static `jnull`; when they do not fit
in the storage, the handles of the array are move constructed into new storage and
the handles in the old storage are destroyed.  For a node that is no array,
`*this = array{i + 1}` allocates a new array of `i + 1` default handles and its
`operator=(json&&)` releases the old node.  The counts `i - arr.size() + 1` and
`i + 1` are computed in `size_t`. -/
def json.operator_subscript_index (fuel cap spare : Nat) (self : node) (i : Nat)
    (f : node → Nat → memory → written node) (next : Nat) (m : memory) : written node :=
  if node.addr self ∈ m.freed then .deleted_read (node.addr self)
  else
    match self with
    | .jarray a arr =>
      if arr.length > i then (array_write_through f i arr next m).map (node.jarray a)
      else if can_allocate cap (arr.length + (i - arr.length + 1) % SIZE_MOD) = false then
        .no_memory
      else if (i - arr.length + 1) % SIZE_MOD ≤ spare then
        (array_write_through f i
          (arr ++ List.replicate ((i - arr.length + 1) % SIZE_MOD) node.null_instance)
          next m).map (node.jarray a)
      else
        match destroy_handles fuel (relocated_sources arr) m with
        | .returned m2 =>
          (array_write_through f i
            (arr ++ List.replicate ((i - arr.length + 1) % SIZE_MOD) node.null_instance)
            next m2).map (node.jarray a)
        | other => .stopped other
    | _ =>
      if can_allocate cap ((i + 1) % SIZE_MOD) = false then .no_memory
      else
        match json.dispose_node fuel (some self) m with
        | .returned m2 =>
          (array_write_through f i
            (List.replicate ((i + 1) % SIZE_MOD) node.null_instance) (next + 1) m2).map
            (node.jarray next)
        | other => .stopped other

/-- The state of the reclaimer after the release of a node with room in the buffer:
a Number, String, Object or Array node is appended, a Null or Boolean node leaves the
state as it was. -/
def released (n : node) (m : memory) : memory :=
  if reclaimable (node.type n) then { jvalues := m.jvalues ++ [n], freed := m.freed } else m

mutual
/-- The node objects of a tree are placed below `bound`: each `jnull` object is the
static at `NULL_ADDR`, and every other node object is at an address above it and
below `bound`. -/
def node.placed (bound : Nat) : node → Bool
  | .jnull a => decide (a = NULL_ADDR)
  | .jobject a m => decide (NULL_ADDR < a ∧ a < bound) && object_placed bound m
  | .jarray a l => decide (NULL_ADDR < a ∧ a < bound) && array_placed bound l
  | .jboolean a _ => decide (NULL_ADDR < a ∧ a < bound)
  | .jint a _ => decide (NULL_ADDR < a ∧ a < bound)
  | .jdouble a _ => decide (NULL_ADDR < a ∧ a < bound)
  | .jstring a _ => decide (NULL_ADDR < a ∧ a < bound)
/-- The node objects under an object payload are placed below `bound`. -/
def object_placed (bound : Nat) : List (String × node) → Bool
  | [] => true
  | (_, v) :: t => node.placed bound v && object_placed bound t
/-- The node objects under an array payload are placed below `bound`. -/
def array_placed (bound : Nat) : List node → Bool
  | [] => true
  | v :: t => node.placed bound v && array_placed bound t
end

/-- No handle of the payload of the node releases its node to the reclaimer: the
node is a leaf, or a container that holds Null and Boolean handles only. -/
def node.quiet (p : node) : Bool :=
  (node.children p).all (fun c => !reclaimable (node.type c))

/-- Sixteen number nodes, at the addresses 10 to 25. -/
def sixteen_numbers : List node :=
  [.jint 10 0, .jint 11 1, .jint 12 2, .jint 13 3, .jint 14 4, .jint 15 5, .jint 16 6,
   .jint 17 7, .jint 18 8, .jint 19 9, .jint 20 10, .jint 21 11, .jint 22 12, .jint 23 13,
   .jint 24 14, .jint 25 15]

/-- Sixteen handles, each holding a string node, at the addresses 10 to 25, followed
by a handle holding the object `(k: "x")` at address 30, whose string is at 31. -/
def seventeen_handles : List handle :=
  [⟨some (.jstring 10 "a")⟩, ⟨some (.jstring 11 "b")⟩, ⟨some (.jstring 12 "c")⟩,
   ⟨some (.jstring 13 "d")⟩, ⟨some (.jstring 14 "e")⟩, ⟨some (.jstring 15 "f")⟩,
   ⟨some (.jstring 16 "g")⟩, ⟨some (.jstring 17 "h")⟩, ⟨some (.jstring 18 "i")⟩,
   ⟨some (.jstring 19 "j")⟩, ⟨some (.jstring 20 "k")⟩, ⟨some (.jstring 21 "l")⟩,
   ⟨some (.jstring 22 "m")⟩, ⟨some (.jstring 23 "n")⟩, ⟨some (.jstring 24 "o")⟩,
   ⟨some (.jstring 25 "p")⟩, ⟨some (.jobject 30 [("k", .jstring 31 "x")])⟩]

/-- Seventeen number nodes, at the addresses 10 to 26. -/
def seventeen_numbers : List node :=
  [.jint 10 0, .jint 11 1, .jint 12 2, .jint 13 3, .jint 14 4, .jint 15 5, .jint 16 6,
   .jint 17 7, .jint 18 8, .jint 19 9, .jint 20 10, .jint 21 11, .jint 22 12, .jint 23 13,
   .jint 24 14, .jint 25 15, .jint 26 16]

/-- The statement `v[16] = 1` on a handle `v` that holds, at address 3, an array of
the sixteen numbers at the addresses 10 to 25, whose storage is full; the temporary
`json(1)` is at address 40 and the reclaimer is empty. -/
def grown_array : written node :=
  json.operator_subscript_index 60 100 0 (.jarray 3 sixteen_numbers) 16
    (move_assign 60 (.jint 40 1)) 41 ⟨[], []⟩

/-- After `grown_array`: the copy `json c(v)` and then the statement `c[0] = 5` on the
copy, with the temporary `json(5)` allocated after the copy. -/
def copy_of_grown_written : written node :=
  match grown_array with
  | .done v next m =>
    json.operator_subscript_index 60 100 0 (node.clone v next).1 0
      (move_assign 60 (.jint (node.clone v next).2 5)) ((node.clone v next).2 + 1) m
  | other => other

/-- What a clone is, in one statement: the allocation goes upward, the node objects
of the clone that are no `jnull` are new (at addresses from `next` on, below the next
address after the call), every node object of the clone is new or the static `jnull`
when the original is placed, and the clone has the tree of the original. -/
def clone_spec (v : node) : Prop :=
  ∀ next : Nat,
    next ≤ (node.clone v next).2 ∧
    (∀ a ∈ node.owned_addrs (node.clone v next).1,
      next ≤ a ∧ a < (node.clone v next).2) ∧
    (∀ bound, node.placed bound v = true →
      ∀ a ∈ node.addrs (node.clone v next).1, next ≤ a ∨ a = NULL_ADDR) ∧
    node.value (node.clone v next).1 = node.value v

/-! ## Lemmas on copying and the containers -/

mutual
/-- A clone is the same tree as its original. -/
theorem clone_eq_self : ∀ v : jvalue, jvalue.clone v = v
  | .jnull => rfl
  | .jboolean _ => rfl
  | .jint _ => rfl
  | .jdouble _ => rfl
  | .jstring _ => rfl
  | .jobject m => by rw [jvalue.clone, object_copy_eq_self m]
  | .jarray a => by rw [jvalue.clone, array_copy_eq_self a]
/-- A copied object payload has the same entries. -/
theorem object_copy_eq_self : ∀ m : List (String × jvalue), object_copy m = m
  | [] => rfl
  | (k, v) :: t => by rw [object_copy, clone_eq_self v, object_copy_eq_self t]
/-- A copied array payload has the same elements. -/
theorem array_copy_eq_self : ∀ a : List jvalue, array_copy a = a
  | [] => rfl
  | v :: t => by rw [array_copy, clone_eq_self v, array_copy_eq_self t]
end

/-- Copy assignment stores the tree of the right-hand side. -/
theorem assign_eq (slot x : json) : json.assign slot x = x := by
  simp [json.assign, clone_eq_self]

/-- Looking a key up after an entry was appended. -/
theorem object_find_append (m : json.object) (k key : String) (v : json) :
    object_find (m ++ [(k, v)]) key =
      match object_find m key with
      | some y => some y
      | none => if k = key then some v else none := by
  induction m with
  | nil => simp [object_find]
  | cons e t ih =>
    obtain ⟨k1, v1⟩ := e
    by_cases h : k1 = key
    · simp [object_find, h]
    · simp [object_find, h, ih]

/-- The key written through is mapped to the new handle. -/
theorem object_find_write_same (f : json → json) (key : String) (m : json.object) :
    object_find (object_write f key m) key = (object_find m key).map f := by
  induction m with
  | nil => simp [object_find, object_write]
  | cons e t ih =>
    obtain ⟨k1, v1⟩ := e
    by_cases h : k1 = key
    · simp [object_find, object_write, h]
    · simp [object_find, object_write, h, ih]

/-- Every other key keeps its handle when one key is written through. -/
theorem object_find_write_other (f : json → json) (key k2 : String) (hk : k2 ≠ key)
    (m : json.object) :
    object_find (object_write f key m) k2 = object_find m k2 := by
  induction m with
  | nil => simp [object_find, object_write]
  | cons e t ih =>
    obtain ⟨k1, v1⟩ := e
    by_cases h : k1 = key
    · have h2 : ¬ k1 = k2 := fun e => hk (e.symm.trans h)
      have h3 : ¬ key = k2 := fun e => hk e.symm
      simp [object_find, object_write, h, h3]
    · by_cases h2 : k1 = k2
      · subst h2
        simp [object_find, object_write, h]
      · simp [object_find, object_write, h, h2, ih]

/-- Writing through a key keeps the number of entries. -/
theorem object_write_length (f : json → json) (key : String) (m : json.object) :
    (object_write f key m).length = m.length := by
  induction m with
  | nil => simp [object_write]
  | cons e t ih =>
    obtain ⟨k1, v1⟩ := e
    by_cases h : k1 = key
    · simp [object_write, h]
    · simp [object_write, h, ih]

/-- Writing through a key keeps the keys, in their order. -/
theorem object_write_keys (f : json → json) (key : String) (m : json.object) :
    (object_write f key m).map Prod.fst = m.map Prod.fst := by
  induction m with
  | nil => simp [object_write]
  | cons e t ih =>
    obtain ⟨k1, v1⟩ := e
    by_cases h : k1 = key
    · simp [object_write, h]
    · simp [object_write, h, ih]

/-- A key that is looked up without success is no key of the map. -/
theorem object_find_none_iff (m : json.object) (key : String) :
    object_find m key = none ↔ key ∉ m.map Prod.fst := by
  induction m with
  | nil => simp [object_find]
  | cons e t ih =>
    obtain ⟨k1, v1⟩ := e
    by_cases h : k1 = key
    · simp [object_find, h]
    · have h2 : ¬ key = k1 := fun e => h e.symm
      simp [object_find, h, h2, ih]

/-! ## Typed extraction and construction -/

/-- On a discriminant mismatch `as_bool`, `as_int` and `as_double` return their
default by value, and `as_string` returns a reference to a temporary. -/
theorem extract_on_mismatch (v : json) :
    (json.value_type v ≠ .BOOLEAN → json.as_bool v = some false) ∧
    (json.value_type v ≠ .NUMBER → json.as_int v = some 0) ∧
    (json.value_type v ≠ .NUMBER → json.as_double v = some (Double.of_int 0)) ∧
    (json.value_type v ≠ .STRING → json.as_string v = some (string_ref.temporary "")) := by
  refine ⟨?_, ?_, ?_, ?_⟩ <;> intro h <;>
    simp [json.as_bool, json.as_int, json.as_double, json.as_string, h]

/-- C1, evaluated at the handle `json(42)`: the call `as_string()` on a handle that
holds no string returns a reference bound to a temporary empty `std::string`, which
is destroyed before the caller has the reference, so the caller has no string to
read (the result is not the empty string). -/
theorem as_string_mismatch_dangles :
    json.as_string (json.json_int 42) = some (string_ref.temporary "") ∧
    (json.as_string (json.json_int 42)).bind string_ref.read = none ∧
    (json.as_string (json.json_int 42)).bind string_ref.read ≠ some "" := by
  refine ⟨?_, ?_, ?_⟩ <;> simp [json.as_string, json.json_int, jvalue.int_instance,
    json.value_type, jvalue.type, string_ref.read]

/-- C2: every constructor yields the discriminant of its argument type and the
matching extractor returns the payload: `json()` and `json(nullptr)` are NUL;
`json(b)` is BOOLEAN and `as_bool` returns `b`; for a 32-bit `i`, `json(i)` is
NUMBER, `as_int` returns `i` and `as_double` returns `i` converted to double;
`json(s)` is STRING and `as_string` returns (a reference to the payload) `s`;
`json(object)` is OBJECT and `json(array)` is ARRAY.  For every handle `v` each
predicate `is_*` is true exactly when `value_type()` is its discriminant, and
exactly one of the six is true. -/
theorem constructors_discriminants_payloads (b : Bool) (i : Int) (hi : is_int i)
    (s : String) (o : json.object) (a : json.array) (v : json) :
    json.value_type json.json_default = .NUL ∧
    json.value_type json.json_nullptr = .NUL ∧
    (json.value_type (json.json_bool b) = .BOOLEAN ∧
      json.as_bool (json.json_bool b) = some b) ∧
    (json.value_type (json.json_int i) = .NUMBER ∧
      json.as_int (json.json_int i) = some i ∧
      json.as_double (json.json_int i) = some (Double.of_int i)) ∧
    (json.value_type (json.json_string s) = .STRING ∧
      json.as_string (json.json_string s) = some (string_ref.payload s) ∧
      (json.as_string (json.json_string s)).bind string_ref.read = some s) ∧
    json.value_type (json.json_object o) = .OBJECT ∧
    json.value_type (json.json_array a) = .ARRAY ∧
    ((json.is_null v = true ↔ json.value_type v = .NUL) ∧
      (json.is_boolean v = true ↔ json.value_type v = .BOOLEAN) ∧
      (json.is_number v = true ↔ json.value_type v = .NUMBER) ∧
      (json.is_string v = true ↔ json.value_type v = .STRING) ∧
      (json.is_object v = true ↔ json.value_type v = .OBJECT) ∧
      (json.is_array v = true ↔ json.value_type v = .ARRAY)) ∧
    List.count true [json.is_null v, json.is_boolean v, json.is_number v,
      json.is_string v, json.is_object v, json.is_array v] = 1 := by
  have _ := hi
  refine ⟨rfl, rfl, ⟨?_, ?_⟩, ⟨rfl, rfl, rfl⟩, ⟨rfl, rfl, rfl⟩, rfl, rfl, ?_, ?_⟩
  · cases b <;> rfl
  · cases b <;> rfl
  · simp [json.is_null, json.is_boolean, json.is_number, json.is_string, json.is_object,
      json.is_array, json.value_type]
  · cases v <;> rfl

/-- C2 at `true`, `7`, `"s"`, an empty object, an empty array and the handle
`json(1.5)`. -/
theorem constructors_discriminants_payloads_witness :
    is_int 7 ∧ json.as_int (json.json_int 7) = some 7 ∧
    json.as_bool (json.json_bool true) = some true ∧
    json.is_number (json.json_double (Double.fin (3 / 2))) = true :=
  ⟨by decide,
   (constructors_discriminants_payloads true 7 (by decide) "s" [] []
      (json.json_double (Double.fin (3 / 2)))).2.2.2.1.2.1,
   (constructors_discriminants_payloads true 7 (by decide) "s" [] []
      (json.json_double (Double.fin (3 / 2)))).2.2.1.2,
   ((constructors_discriminants_payloads true 7 (by decide) "s" [] []
      (json.json_double (Double.fin (3 / 2)))).2.2.2.2.2.2.2.1.2.2.1).mpr rfl⟩

/-! ## Writing through a key -/

/-- Value level, the non-object branch of `v[k] = x`: for a handle `v` that is no
object, the tree of `v` when the statement has completed (by copy or by move
assignment) is an object whose one entry maps `k` to `x`; nothing of the old content
of `v` is left.  Whether the statement completes is decided at the pointer level,
by the release of the old node. -/
theorem write_key_non_object (v : json) (k : String) (x : json)
    (h : json.value_type v ≠ .OBJECT) :
    json.assign_key v k x = .jobject [(k, x)] ∧
    json.assign_move_key v k x = .jobject [(k, x)] ∧
    json.value_type (json.assign_key v k x) = .OBJECT := by
  have key : ∀ f : json → json,
      json.write_key v k f = .jobject [(k, f json.json_default)] := by
    intro f
    cases v <;>
      first
      | exact absurd rfl h
      | simp [json.write_key, json.subscript_key, json.assign_move, json.json_object,
          jvalue.object_instance, object_subscript, object_find, object_write]
  refine ⟨?_, ?_, ?_⟩
  · simp [json.assign_key, key, assign_eq]
  · simp [json.assign_move_key, key, json.assign_move]
  · simp [json.assign_key, key, json.value_type, jvalue.type]

/-- C4: for keys `a`, `b` and a value `x`, from a Null handle `v` the chained write
`v[a][b] = x` leaves `v` an object whose only entry is `a`, mapped to an object
whose only entry is `b`, mapped to `x`; for `"a"`, `"b"`, `5` that is the object
`a: (b: 5)`. -/
theorem chained_write_from_null :
    (∀ (a b : String) (x : json),
      json.write_key json.json_default a (fun slot => json.assign_key slot b x)
        = .jobject [(a, .jobject [(b, x)])] ∧
      json.write_key json.json_default a (fun slot => json.assign_move_key slot b x)
        = .jobject [(a, .jobject [(b, x)])]) ∧
    json.write_key json.json_default "a"
        (fun slot => json.assign_move_key slot "b" (json.json_int 5))
      = json.json_object [("a", json.json_object [("b", json.json_int 5)])] := by
  have key : ∀ (v : json) (k : String) (f : json → json), json.value_type v ≠ .OBJECT →
      json.write_key v k f = .jobject [(k, f json.json_default)] := by
    intro v k f h
    cases v <;>
      first
      | exact absurd rfl h
      | simp [json.write_key, json.subscript_key, json.assign_move, json.json_object,
          jvalue.object_instance, object_subscript, object_find, object_write]
  have hnull : json.value_type json.json_default ≠ .OBJECT := by decide
  have main : ∀ (a b : String) (x : json),
      json.write_key json.json_default a (fun slot => json.assign_key slot b x)
        = .jobject [(a, .jobject [(b, x)])] ∧
      json.write_key json.json_default a (fun slot => json.assign_move_key slot b x)
        = .jobject [(a, .jobject [(b, x)])] := by
    intro a b x
    constructor
    · rw [key _ a _ hnull]
      simp [json.assign_key, key _ b _ hnull, assign_eq]
    · rw [key _ a _ hnull]
      simp [json.assign_move_key, key _ b _ hnull, json.assign_move]
  exact ⟨main, (main "a" "b" (json.json_int 5)).2⟩

/-- Value level, the object branch of `v[k]` and `v[k] = x`: the mutable access
`v[k]` appends an entry `k -> Null` when `k` is absent and leaves `v` as it is when
`k` is present (so an entry is inserted if and only if `k` was absent); when
`v[k] = x` has completed the object maps `k` to `x`, every other key is mapped as
before, and the number of entries is that after the access alone.  Whether the
assignment completes is decided at the pointer level, by the release of the node the
entry held. -/
theorem write_key_object (v : json) (k : String) (x : json)
    (h : json.value_type v = .OBJECT) :
    ∃ m m1 m2 : json.object,
      v = .jobject m ∧ json.subscript_key v k = .jobject m1 ∧
      json.assign_key v k x = .jobject m2 ∧ json.assign_move_key v k x = .jobject m2 ∧
      (object_find m k = none → m1 = m ++ [(k, json.null)]) ∧
      (∀ y, object_find m k = some y → m1 = m) ∧
      (m1 ≠ m ↔ object_find m k = none) ∧
      (∀ k2, k2 ≠ k → object_find m1 k2 = object_find m k2) ∧
      object_find m2 k = some x ∧
      (∀ k2, k2 ≠ k → object_find m2 k2 = object_find m k2) ∧
      m2.length = m1.length ∧
      m2.map Prod.fst = m1.map Prod.fst := by
  cases v with
  | jobject m =>
    have hsub : ∀ k2, k2 ≠ k →
        object_find (object_subscript m k) k2 = object_find m k2 := by
      intro k2 hk
      unfold object_subscript
      cases hf : object_find m k with
      | some y => rfl
      | none =>
        have hk2 : ¬ k = k2 := fun e => hk e.symm
        simp only [object_find_append]
        cases object_find m k2 <;> simp [hk2]
    have hsame : ∀ f : json → json,
        object_find (object_write f k (object_subscript m k)) k
          = some (f ((object_find m k).getD json.json_default)) := by
      intro f
      rw [object_find_write_same]
      unfold object_subscript
      cases hf : object_find m k with
      | some y => simp [hf]
      | none => simp [object_find_append, hf]
    refine ⟨m, object_subscript m k,
      object_write (fun slot => json.assign slot x) k (object_subscript m k),
      rfl, rfl, rfl, ?_, ?_, ?_, ?_, hsub, ?_, ?_, ?_, ?_⟩
    · simp only [json.assign_move_key, json.write_key, json.subscript_key]
      congr 2
      funext slot
      simp [json.assign_move, assign_eq]
    · intro hf
      simp [object_subscript, hf, json.null]
    · intro y hf
      simp [object_subscript, hf]
    · unfold object_subscript
      cases hf : object_find m k with
      | some y => simp
      | none => simp
    · rw [hsame]
      simp [assign_eq]
    · intro k2 hk
      rw [object_find_write_other _ _ _ hk, hsub k2 hk]
    · exact object_write_length _ _ _
    · exact object_write_keys _ _ _
  | _ => simp [json.value_type, jvalue.type] at h

/-! ## Reading through a key or an index -/

/-- C8: the const `v[k]` is the stored handle when `v` is an object that has `k`,
and the canonical Null handle `json::null` when `v` is an object without `k` or is
no object; the const `v[i]` of a handle that is no array is `json::null`.  That
handle has discriminant NUL and compares equal to itself, and the read returns with
`v` as it was. -/
theorem read_const (v : json) (k : String) (i : Nat) :
    (∀ (m : json.object) (y : json), v = .jobject m → object_find m k = some y →
      (json.subscript_key_const v k).2 = some y) ∧
    (∀ m : json.object, v = .jobject m → object_find m k = none →
      (json.subscript_key_const v k).2 = some json.null) ∧
    (json.value_type v ≠ .OBJECT → (json.subscript_key_const v k).2 = some json.null) ∧
    (json.value_type v ≠ .ARRAY → (json.subscript_index_const v i).2 = some json.null) ∧
    json.value_type json.null = .NUL ∧
    json.eq json.null json.null = true ∧
    (json.subscript_key_const v k).1 = v ∧
    (json.subscript_index_const v i).1 = v := by
  refine ⟨?_, ?_, ?_, ?_, rfl, rfl, ?_, ?_⟩
  · intro m y hv hf
    subst hv
    simp [json.subscript_key_const, json.value_type, jvalue.type, jvalue.get_value_unsafe, hf]
  · intro m hv hf
    subst hv
    simp [json.subscript_key_const, json.value_type, jvalue.type, jvalue.get_value_unsafe, hf]
  · intro h
    simp [json.subscript_key_const, h]
  · intro h
    simp [json.subscript_index_const, h]
  · unfold json.subscript_key_const
    split <;> rfl
  · unfold json.subscript_index_const
    split <;> rfl

/-- C8 at the object with the one entry `a: 1`, read through `a` and through the
absent `b`, and at the handle `json(42)`, read through a key and through an
index. -/
theorem read_const_witness :
    (json.subscript_key_const (json.json_object [("a", json.json_int 1)]) "a").2
      = some (json.json_int 1) ∧
    (json.subscript_key_const (json.json_object [("a", json.json_int 1)]) "b").2
      = some json.null ∧
    (json.value_type (json.json_int 42) ≠ .OBJECT ∧
      (json.subscript_key_const (json.json_int 42) "a").2 = some json.null) ∧
    (json.value_type (json.json_int 42) ≠ .ARRAY ∧
      (json.subscript_index_const (json.json_int 42) 3).2 = some json.null) :=
  ⟨(read_const (json.json_object [("a", json.json_int 1)]) "a" 0).1
      [("a", json.json_int 1)] (json.json_int 1) rfl (by simp [object_find]),
   (read_const (json.json_object [("a", json.json_int 1)]) "b" 0).2.1
      [("a", json.json_int 1)] rfl (by simp [object_find]),
   ⟨by decide, (read_const (json.json_int 42) "a" 3).2.2.1 (by decide)⟩,
   ⟨by decide, (read_const (json.json_int 42) "a" 3).2.2.2.1 (by decide)⟩⟩

/-! ## Equality of numbers -/

/-- Two handles of discriminant NUMBER are compared by `get_double()`. -/
theorem number_eq_get_double (l r : json) (hl : json.value_type l = .NUMBER)
    (hr : json.value_type r = .NUMBER) :
    ∃ x y : Double, jvalue.get_double l = some x ∧ jvalue.get_double r = some y ∧
      json.eq l r = Double.eq x y := by
  cases l <;> simp [json.value_type, jvalue.type] at hl <;>
    cases r <;> simp [json.value_type, jvalue.type] at hr <;>
    simp [jvalue.get_double, json.eq, jvalue.type, jvalue.equals_to_unsafe]

/-- C9: two number handles are equal when their double representations are,
whatever their sub-kind: for 32-bit ints `a`, `b`, `json(a) == json(b)` if and only
if `a = b`; for an int `a` and a double `d`, `json(a) == json(d)` if and only if
`a` converted to double equals `d`; `json(1) == json(1.0)` holds and
`json(1) == json(2)` does not. -/
theorem number_equality (a b : Int) (ha : is_int a) (hb : is_int b) (d : Double)
    (l r : json) (hl : json.value_type l = .NUMBER) (hr : json.value_type r = .NUMBER) :
    (∃ x y : Double, jvalue.get_double l = some x ∧ jvalue.get_double r = some y ∧
      json.eq l r = Double.eq x y) ∧
    (json.eq (json.json_int a) (json.json_int b) = true ↔ a = b) ∧
    (json.eq (json.json_int a) (json.json_double d) = true ↔
      Double.eq (Double.of_int a) d = true) ∧
    json.eq (json.json_int 1) (json.json_double (Double.fin 1)) = true ∧
    json.eq (json.json_int 1) (json.json_int 2) = false := by
  have _ := ha
  have _ := hb
  refine ⟨number_eq_get_double l r hl hr, ?_, ?_, ?_, ?_⟩
  · simp [json.eq, json.json_int, jvalue.int_instance, jvalue.type, jvalue.equals_to_unsafe,
      Double.eq, Double.of_int]
  · simp [json.eq, json.json_int, json.json_double, jvalue.int_instance,
      jvalue.double_instance, jvalue.type, jvalue.equals_to_unsafe]
  · simp [json.eq, json.json_int, json.json_double, jvalue.int_instance,
      jvalue.double_instance, jvalue.type, jvalue.equals_to_unsafe, Double.eq, Double.of_int]
  · simp [json.eq, json.json_int, jvalue.int_instance, jvalue.type, jvalue.equals_to_unsafe,
      Double.eq, Double.of_int]

/-- C9 at the ints 3 and 3, the double 3.0 and the handles `json(7)` and
`json(7.0)`. -/
theorem number_equality_witness :
    is_int 3 ∧ json.value_type (json.json_int 7) = .NUMBER ∧
    json.value_type (json.json_double (Double.fin 7)) = .NUMBER ∧
    (json.eq (json.json_int 3) (json.json_int 3) = true ↔ (3 : Int) = 3) ∧
    (json.eq (json.json_int 3) (json.json_double (Double.fin 3)) = true ↔
      Double.eq (Double.of_int 3) (Double.fin 3) = true) :=
  ⟨by decide, rfl, rfl,
   (number_equality 3 3 (by decide) (by decide) (Double.fin 3) (json.json_int 7)
      (json.json_double (Double.fin 7)) rfl rfl).2.1,
   (number_equality 3 3 (by decide) (by decide) (Double.fin 3) (json.json_int 7)
      (json.json_double (Double.fin 7)) rfl rfl).2.2.1⟩

/-! ## Equality of containers -/

/-- Equality of two array handles is `==` of the payloads. -/
theorem json_eq_jarray (a b : json.array) :
    json.eq (.jarray a) (.jarray b) = array_eq a b := by
  simp [json.eq, jvalue.type, jvalue.equals_to_unsafe]

/-- Equality of two object handles is `==` of the payloads. -/
theorem json_eq_jobject (m n : json.object) :
    json.eq (.jobject m) (.jobject n) = (m.length == n.length && object_included m n) := by
  simp [json.eq, jvalue.type, jvalue.equals_to_unsafe]

/-- The `==` of arrays relates the elements position by position. -/
theorem array_eq_iff_pairwise (a : json.array) :
    ∀ b : json.array,
      array_eq a b = true ↔ List.Forall₂ (fun x y => json.eq x y = true) a b := by
  induction a with
  | nil =>
    intro b
    cases b <;> simp [array_eq]
  | cons x xs ih =>
    intro b
    cases b with
    | nil => simp [array_eq]
    | cons y ys =>
      simp only [array_eq, Bool.and_eq_true, List.forall₂_cons, ih ys, json.eq]

/-- The member-wise part of `==` of objects, entry by entry. -/
theorem object_included_iff (t b : json.object) :
    object_included t b = true ↔
      ∀ k v, (k, v) ∈ t → ∃ w, object_find b k = some w ∧ json.eq v w = true := by
  induction t with
  | nil => simp [object_included]
  | cons e t ih =>
    obtain ⟨k1, v1⟩ := e
    simp only [object_included, Bool.and_eq_true, ih, List.mem_cons, Prod.mk.injEq]
    constructor
    · rintro ⟨h1, h2⟩ k v (⟨rfl, rfl⟩ | hmem)
      · cases hf : object_find b k with
        | none => simp [hf] at h1
        | some w =>
          refine ⟨w, rfl, ?_⟩
          simpa [hf, json.eq] using h1
      · exact h2 k v hmem
    · intro h
      refine ⟨?_, fun k v hmem => h k v (Or.inr hmem)⟩
      obtain ⟨w, hw, he⟩ := h k1 v1 (Or.inl ⟨rfl, rfl⟩)
      simpa [hw, json.eq] using he

/-- A handle that is found under a key is an entry of the map. -/
theorem object_find_mem (m : json.object) (k : String) (v : json) :
    object_find m k = some v → (k, v) ∈ m := by
  induction m with
  | nil => simp [object_find]
  | cons e t ih =>
    obtain ⟨k1, v1⟩ := e
    by_cases h : k1 = k
    · subst h
      simp only [object_find, if_true, Option.some.injEq, List.mem_cons]
      intro hv
      exact Or.inl (by rw [hv])
    · simp only [object_find, h, if_false, List.mem_cons]
      intro hf
      exact Or.inr (ih hf)

/-- With unique keys, every entry of the map is found under its key. -/
theorem object_find_of_mem (m : json.object) (hm : object_wf m) (k : String) (v : json) :
    (k, v) ∈ m → object_find m k = some v := by
  induction m with
  | nil => simp
  | cons e t ih =>
    obtain ⟨k1, v1⟩ := e
    have hnd : k1 ∉ t.map Prod.fst ∧ (t.map Prod.fst).Nodup := by
      simpa [object_wf] using hm
    intro hmem
    rcases List.mem_cons.mp hmem with heq | hmem
    · injection heq with h1 h2
      simp [object_find, h1, h2]
    · have hk : k ∈ t.map Prod.fst := List.mem_map.mpr ⟨(k, v), hmem, rfl⟩
      have hne : ¬ k1 = k := fun e => hnd.1 (e ▸ hk)
      simp only [object_find, hne, if_false]
      exact ih hnd.2 hmem

/-- A key is found exactly when it is a key of the map. -/
theorem object_find_isSome_iff (m : json.object) (k : String) :
    (object_find m k).isSome = true ↔ k ∈ m.map Prod.fst := by
  have := object_find_none_iff m k
  cases hf : object_find m k with
  | none =>
    rw [hf] at this
    simpa using this
  | some w =>
    rw [hf] at this
    simp only [Option.isSome_some, true_iff]
    by_contra hc
    exact absurd (this.mpr hc) (by simp)

/-- Array handles: equal if and only if they have the same length and equal
elements at every position. -/
theorem array_eq_iff (a b : json.array) :
    json.eq (.jarray a) (.jarray b) = true ↔
      a.length = b.length ∧
      ∀ (i : Nat) (x y : json), a.get? i = some x → b.get? i = some y →
        json.eq x y = true := by
  rw [json_eq_jarray, array_eq_iff_pairwise, List.forall₂_iff_get]
  constructor
  · rintro ⟨hl, h⟩
    refine ⟨hl, ?_⟩
    intro i x y hx hy
    rw [List.get?_eq_some] at hx hy
    obtain ⟨h1, rfl⟩ := hx
    obtain ⟨h2, rfl⟩ := hy
    exact h i h1 h2
  · rintro ⟨hl, h⟩
    refine ⟨hl, ?_⟩
    intro i h1 h2
    exact h i _ _ (List.get?_eq_get h1) (List.get?_eq_get h2)

/-- Object handles, one direction, which needs no invariant: equal objects map
every key to equal handles. -/
theorem object_eq_values (m n : json.object) (h : json.eq (.jobject m) (.jobject n) = true)
    (k : String) (x y : json) (hx : object_find m k = some x)
    (hy : object_find n k = some y) : json.eq x y = true := by
  rw [json_eq_jobject, Bool.and_eq_true, object_included_iff] at h
  obtain ⟨w, hw, he⟩ := h.2 k x (object_find_mem m k x hx)
  rw [hy] at hw
  injection hw with hw
  rw [hw]
  exact he

/-- Object handles: equal if and only if they have the same keys and equal handles
under every key. -/
theorem object_eq_iff (m n : json.object) (hm : object_wf m) (hn : object_wf n) :
    json.eq (.jobject m) (.jobject n) = true ↔
      (∀ k : String, (object_find m k).isSome = (object_find n k).isSome) ∧
      ∀ (k : String) (x y : json), object_find m k = some x → object_find n k = some y →
        json.eq x y = true := by
  constructor
  · intro h
    refine ⟨?_, fun k x y hx hy => object_eq_values m n h k x y hx hy⟩
    have h2 := h
    rw [json_eq_jobject, Bool.and_eq_true, object_included_iff] at h2
    obtain ⟨hlen, hinc⟩ := h2
    have hlen2 : m.length = n.length := by simpa using hlen
    have hsub : m.map Prod.fst ⊆ n.map Prod.fst := by
      intro k hk
      obtain ⟨⟨k1, v⟩, hmem, rfl⟩ := List.mem_map.mp hk
      obtain ⟨w, hw, _⟩ := hinc k1 v hmem
      exact (object_find_isSome_iff n k1).mp (by simp [hw])
    have hperm : List.Perm (m.map Prod.fst) (n.map Prod.fst) :=
      (List.subperm_of_subset hm hsub).perm_of_length_le (by simp [hlen2])
    intro k
    have e1 := object_find_isSome_iff m k
    have e2 := object_find_isSome_iff n k
    have e3 : k ∈ m.map Prod.fst ↔ k ∈ n.map Prod.fst := hperm.mem_iff
    cases h1 : (object_find m k).isSome <;> cases h2 : (object_find n k).isSome <;>
      simp_all
  · rintro ⟨hkeys, hvals⟩
    rw [json_eq_jobject, Bool.and_eq_true, object_included_iff]
    have hmem : ∀ k, k ∈ m.map Prod.fst ↔ k ∈ n.map Prod.fst := by
      intro k
      rw [← object_find_isSome_iff m k, ← object_find_isSome_iff n k, hkeys k]
    have hperm : List.Perm (m.map Prod.fst) (n.map Prod.fst) :=
      (List.perm_ext_iff_of_nodup hm hn).mpr hmem
    refine ⟨?_, ?_⟩
    · have := hperm.length_eq
      simpa using this
    · intro k v hkv
      have hx := object_find_of_mem m hm k v hkv
      have hs : (object_find n k).isSome = true := by rw [← hkeys k, hx]; rfl
      obtain ⟨w, hw⟩ := Option.isSome_iff_exists.mp hs
      exact ⟨w, hw, hvals k v w hx hw⟩

mutual
/-- A handle without NaN (and with unique keys in its objects) equals itself. -/
theorem json_eq_refl : ∀ v : jvalue, jvalue.keys_unique v = true →
    jvalue.nan_free v = true → json.eq v v = true
  | .jnull, _, _ => rfl
  | .jboolean _, _, _ => by simp [json.eq, jvalue.equals_to_unsafe]
  | .jint _, _, _ => by simp [json.eq, jvalue.equals_to_unsafe, Double.eq, Double.of_int]
  | .jdouble d, _, hn => by
    rw [jvalue.nan_free, decide_eq_true_eq] at hn
    cases d <;> simp_all [json.eq, jvalue.equals_to_unsafe, Double.eq]
  | .jstring _, _, _ => by simp [json.eq, jvalue.equals_to_unsafe]
  | .jobject m, hk, hn => by
    rw [jvalue.keys_unique, Bool.and_eq_true, decide_eq_true_eq] at hk
    rw [jvalue.nan_free] at hn
    rw [json_eq_jobject, Bool.and_eq_true, object_included_iff]
    refine ⟨by simp, ?_⟩
    intro k v hmem
    exact ⟨v, object_find_of_mem m hk.1 k v hmem, object_values_eq_refl m hk.2 hn k v hmem⟩
  | .jarray a, hk, hn => by
    rw [jvalue.keys_unique] at hk
    rw [jvalue.nan_free] at hn
    rw [json_eq_jarray, array_eq_iff_pairwise, List.forall₂_same]
    exact array_elements_eq_refl a hk hn
/-- The handles of an object payload without NaN equal themselves. -/
theorem object_values_eq_refl : ∀ m : List (String × jvalue),
    object_keys_unique m = true → object_nan_free m = true →
    ∀ (k : String) (v : jvalue), (k, v) ∈ m → json.eq v v = true
  | [], _, _ => by simp
  | (_, v1) :: t, hk, hn => by
    rw [object_keys_unique, Bool.and_eq_true] at hk
    rw [object_nan_free, Bool.and_eq_true] at hn
    intro k v hmem
    rcases List.mem_cons.mp hmem with heq | hmem
    · injection heq with _ h2
      rw [h2]
      exact json_eq_refl v1 hk.1 hn.1
    · exact object_values_eq_refl t hk.2 hn.2 k v hmem
/-- The elements of an array payload without NaN equal themselves. -/
theorem array_elements_eq_refl : ∀ a : List jvalue, array_keys_unique a = true →
    array_nan_free a = true → ∀ x ∈ a, json.eq x x = true
  | [], _, _ => by simp
  | v1 :: t, hk, hn => by
    rw [array_keys_unique, Bool.and_eq_true] at hk
    rw [array_nan_free, Bool.and_eq_true] at hn
    intro x hmem
    rcases List.mem_cons.mp hmem with heq | hmem
    · rw [heq]
      exact json_eq_refl v1 hk.1 hn.1
    · exact array_elements_eq_refl t hk.2 hn.2 x hmem
end

/-- Equal handles have equal nested values at the end of every path that exists in
both. -/
theorem json_eq_descend : ∀ (p : List path_step) (c d x y : json),
    json.eq c d = true → jvalue.descend c p = some x → jvalue.descend d p = some y →
    json.eq x y = true := by
  intro p
  induction p with
  | nil =>
    intro c d x y h hx hy
    simp only [jvalue.descend, Option.some.injEq] at hx hy
    rw [← hx, ← hy]
    exact h
  | cons s p ih =>
    intro c d x y h hx hy
    cases s with
    | key k =>
      cases c with
      | jobject m =>
        cases d with
        | jobject n =>
          simp only [jvalue.descend] at hx hy
          cases hfm : object_find m k with
          | none => simp [hfm] at hx
          | some x1 =>
            cases hfn : object_find n k with
            | none => simp [hfn] at hy
            | some y1 =>
              rw [hfm] at hx
              rw [hfn] at hy
              exact ih x1 y1 x y (object_eq_values m n h k x1 y1 hfm hfn) hx hy
        | _ => simp [jvalue.descend] at hy
      | _ => simp [jvalue.descend] at hx
    | index i =>
      cases c with
      | jarray a =>
        cases d with
        | jarray b =>
          simp only [jvalue.descend] at hx hy
          cases hfa : a.get? i with
          | none =>
            rw [hfa] at hx
            exact absurd hx (by simp)
          | some x1 =>
            cases hfb : b.get? i with
            | none =>
              rw [hfb] at hy
              exact absurd hy (by simp)
            | some y1 =>
              rw [hfa] at hx
              rw [hfb] at hy
              exact ih x1 y1 x y (((array_eq_iff a b).mp h).2 i x1 y1 hfa hfb) hx hy
        | _ => simp [jvalue.descend] at hy
      | _ => simp [jvalue.descend] at hx

/-- C10 fails for containers that hold a NaN: two arrays, and two objects, built
with identical contents compare unequal. -/
theorem nan_containers_compare_unequal :
    json.eq (json.json_array [json.json_double Double.nan])
      (json.json_array [json.json_double Double.nan]) = false ∧
    json.eq (json.json_object [("k", json.json_double Double.nan)])
      (json.json_object [("k", json.json_double Double.nan)]) = false := by
  constructor <;>
    simp [json.eq, json.json_array, json.json_object, json.json_double,
      jvalue.array_instance, jvalue.object_instance, jvalue.double_instance, jvalue.type,
      jvalue.equals_to_unsafe, array_eq, object_included, object_find, Double.eq]

/-- C10, amended: two array handles compare equal if and only if they have the same
length and their elements are pairwise equal under `operator==`; two object handles
compare equal if and only if they have the same key set and the values under each
key are equal under `operator==`.  Hence two containers built with identical
contents that hold no NaN at any depth compare equal (also a container and its
copy), and containers whose values at one nested position, at any depth, are not
equal under `operator==` compare unequal. -/
theorem container_equality (a b : json.array) (m n : json.object)
    (hm : object_wf m) (hn : object_wf n) :
    (json.eq (.jarray a) (.jarray b) = true ↔
      a.length = b.length ∧
      ∀ (i : Nat) (x y : json), a.get? i = some x → b.get? i = some y →
        json.eq x y = true) ∧
    (json.eq (.jobject m) (.jobject n) = true ↔
      (∀ k : String, (object_find m k).isSome = (object_find n k).isSome) ∧
      ∀ (k : String) (x y : json), object_find m k = some x → object_find n k = some y →
        json.eq x y = true) ∧
    (∀ c : json, json.value_type c = .ARRAY ∨ json.value_type c = .OBJECT →
      jvalue.keys_unique c = true → jvalue.nan_free c = true →
      json.eq c c = true ∧ json.eq c (json.json_copy c) = true) ∧
    (∀ (c d : json) (p : List path_step) (x y : json),
      jvalue.descend c p = some x → jvalue.descend d p = some y →
      json.eq x y = false → json.eq c d = false) := by
  refine ⟨array_eq_iff a b, object_eq_iff m n hm hn, ?_, ?_⟩
  · intro c _ hk hnan
    have hc : json.json_copy c = c := clone_eq_self c
    rw [hc]
    exact ⟨json_eq_refl c hk hnan, json_eq_refl c hk hnan⟩
  · intro c d p x y hx hy hne
    cases hcd : json.eq c d with
    | false => rfl
    | true =>
      have := json_eq_descend p c d x y hcd hx hy
      rw [hne] at this
      exact absurd this (by simp)

/-- C10 amended, at the objects with the one entry `k: 1` and `k: 1.0`, which are
equal, and at the arrays `[[1]]` and `[[2]]`, which differ at the path `0, 0`. -/
theorem container_equality_witness :
    object_wf [("k", json.json_int 1)] ∧
    object_wf [("k", json.json_double (Double.fin 1))] ∧
    (json.eq (.jobject [("k", json.json_int 1)])
        (.jobject [("k", json.json_double (Double.fin 1))]) = true ↔
      (∀ k : String, (object_find [("k", json.json_int 1)] k).isSome
        = (object_find [("k", json.json_double (Double.fin 1))] k).isSome) ∧
      ∀ (k : String) (x y : json), object_find [("k", json.json_int 1)] k = some x →
        object_find [("k", json.json_double (Double.fin 1))] k = some y →
        json.eq x y = true) ∧
    json.eq (.jarray [.jarray [json.json_int 1]]) (.jarray [.jarray [json.json_int 2]])
      = false ∧
    (jvalue.keys_unique (.jarray [.jobject [("k", json.json_int 1)]]) = true ∧
      jvalue.nan_free (.jarray [.jobject [("k", json.json_int 1)]]) = true ∧
      json.eq (.jarray [.jobject [("k", json.json_int 1)]])
        (.jarray [.jobject [("k", json.json_int 1)]]) = true) :=
  ⟨by decide, by decide,
   (container_equality [] [] [("k", json.json_int 1)]
      [("k", json.json_double (Double.fin 1))] (by decide) (by decide)).2.1,
   (container_equality [] [] [("k", json.json_int 1)]
      [("k", json.json_double (Double.fin 1))] (by decide) (by decide)).2.2.2 (.jarray [.jarray [json.json_int 1]])
      (.jarray [.jarray [json.json_int 2]]) [.index 0, .index 0] (json.json_int 1)
      (json.json_int 2) rfl rfl
      (by simp [json.eq, json.json_int, jvalue.int_instance, jvalue.type,
        jvalue.equals_to_unsafe, Double.eq, Double.of_int]),
   ⟨by decide, by decide,
    ((container_equality [] [] [("k", json.json_int 1)]
      [("k", json.json_double (Double.fin 1))] (by decide) (by decide)).2.2.1
      (.jarray [.jobject [("k", json.json_int 1)]]) (Or.inl rfl) (by decide)
      (by decide)).1⟩⟩

/-! ## Induction over the trees -/

mutual
/-- Induction over a tree: a property that holds for the leaves, and for a container
whenever it holds for its handles, holds for every tree. -/
theorem jvalue_induction (P : jvalue → Prop) (hnull : P .jnull)
    (hbool : ∀ b, P (.jboolean b)) (hint : ∀ i, P (.jint i))
    (hdouble : ∀ d, P (.jdouble d)) (hstring : ∀ s, P (.jstring s))
    (hobj : ∀ m : List (String × jvalue), (∀ k v, (k, v) ∈ m → P v) → P (.jobject m))
    (harr : ∀ a : List jvalue, (∀ x ∈ a, P x) → P (.jarray a)) : ∀ v : jvalue, P v
  | .jnull => hnull
  | .jboolean b => hbool b
  | .jint i => hint i
  | .jdouble d => hdouble d
  | .jstring s => hstring s
  | .jobject m =>
    hobj m (object_induction P hnull hbool hint hdouble hstring hobj harr m)
  | .jarray a =>
    harr a (array_induction P hnull hbool hint hdouble hstring hobj harr a)
/-- Induction over a tree, for the handles of an object payload. -/
theorem object_induction (P : jvalue → Prop) (hnull : P .jnull)
    (hbool : ∀ b, P (.jboolean b)) (hint : ∀ i, P (.jint i))
    (hdouble : ∀ d, P (.jdouble d)) (hstring : ∀ s, P (.jstring s))
    (hobj : ∀ m : List (String × jvalue), (∀ k v, (k, v) ∈ m → P v) → P (.jobject m))
    (harr : ∀ a : List jvalue, (∀ x ∈ a, P x) → P (.jarray a)) :
    ∀ (m : List (String × jvalue)) (k : String) (v : jvalue), (k, v) ∈ m → P v
  | [], _, _, h => absurd h (List.not_mem_nil _)
  | (_, v1) :: t, k, v, h => by
    rcases List.mem_cons.mp h with heq | hmem
    · injection heq with _ h2
      rw [h2]
      exact jvalue_induction P hnull hbool hint hdouble hstring hobj harr v1
    · exact object_induction P hnull hbool hint hdouble hstring hobj harr t k v hmem
/-- Induction over a tree, for the elements of an array payload. -/
theorem array_induction (P : jvalue → Prop) (hnull : P .jnull)
    (hbool : ∀ b, P (.jboolean b)) (hint : ∀ i, P (.jint i))
    (hdouble : ∀ d, P (.jdouble d)) (hstring : ∀ s, P (.jstring s))
    (hobj : ∀ m : List (String × jvalue), (∀ k v, (k, v) ∈ m → P v) → P (.jobject m))
    (harr : ∀ a : List jvalue, (∀ x ∈ a, P x) → P (.jarray a)) :
    ∀ (a : List jvalue) (x : jvalue), x ∈ a → P x
  | [], _, h => absurd h (List.not_mem_nil _)
  | v1 :: t, x, h => by
    rcases List.mem_cons.mp h with heq | hmem
    · rw [heq]
      exact jvalue_induction P hnull hbool hint hdouble hstring hobj harr v1
    · exact array_induction P hnull hbool hint hdouble hstring hobj harr t x hmem
end

/-- Unique keys at every depth of an object: unique keys of the object, and unique
keys at every depth of each handle. -/
theorem keys_unique_jobject (m : json.object) :
    jvalue.keys_unique (.jobject m) = true ↔
      object_wf m ∧ ∀ k v, (k, v) ∈ m → jvalue.keys_unique v = true := by
  have aux : ∀ t : List (String × jvalue),
      object_keys_unique t = true ↔ ∀ k v, (k, v) ∈ t → jvalue.keys_unique v = true := by
    intro t
    induction t with
    | nil => simp [object_keys_unique]
    | cons e t ih =>
      obtain ⟨k1, v1⟩ := e
      simp only [object_keys_unique, Bool.and_eq_true, ih, List.mem_cons, Prod.mk.injEq]
      constructor
      · rintro ⟨h1, h2⟩ k v (⟨_, rfl⟩ | hmem)
        · exact h1
        · exact h2 k v hmem
      · intro h
        exact ⟨h k1 v1 (Or.inl ⟨rfl, rfl⟩), fun k v hmem => h k v (Or.inr hmem)⟩
  rw [jvalue.keys_unique, Bool.and_eq_true, decide_eq_true_eq, aux]
  rfl

/-- Unique keys at every depth of an array: at every depth of each element. -/
theorem keys_unique_jarray (a : json.array) :
    jvalue.keys_unique (.jarray a) = true ↔ ∀ x ∈ a, jvalue.keys_unique x = true := by
  rw [jvalue.keys_unique]
  induction a with
  | nil => simp [array_keys_unique]
  | cons v t ih => simp [array_keys_unique, ih]

/-- No NaN in an object: none in each of its handles. -/
theorem nan_free_jobject (m : json.object) :
    jvalue.nan_free (.jobject m) = true ↔ ∀ k v, (k, v) ∈ m → jvalue.nan_free v = true := by
  rw [jvalue.nan_free]
  induction m with
  | nil => simp [object_nan_free]
  | cons e t ih =>
    obtain ⟨k1, v1⟩ := e
    simp only [object_nan_free, Bool.and_eq_true, ih, List.mem_cons, Prod.mk.injEq]
    constructor
    · rintro ⟨h1, h2⟩ k v (⟨_, rfl⟩ | hmem)
      · exact h1
      · exact h2 k v hmem
    · intro h
      exact ⟨h k1 v1 (Or.inl ⟨rfl, rfl⟩), fun k v hmem => h k v (Or.inr hmem)⟩

/-- No NaN in an array: none in each of its elements. -/
theorem nan_free_jarray (a : json.array) :
    jvalue.nan_free (.jarray a) = true ↔ ∀ x ∈ a, jvalue.nan_free x = true := by
  rw [jvalue.nan_free]
  induction a with
  | nil => simp [array_nan_free]
  | cons v t ih => simp [array_nan_free, ih]

/-! ## Equality: discriminants, symmetry, transitivity -/

/-- The comparison of doubles is symmetric. -/
theorem Double_eq_symm (a b : Double) : Double.eq a b = Double.eq b a := by
  cases a <;> cases b <;> simp [Double.eq, eq_comm]

/-- The comparison of doubles is transitive. -/
theorem Double_eq_trans (a b c : Double) (hab : Double.eq a b = true)
    (hbc : Double.eq b c = true) : Double.eq a c = true := by
  cases a <;> cases b <;> cases c <;> simp_all [Double.eq]

/-- A double equals itself unless it is a NaN. -/
theorem Double_eq_self (a : Double) : Double.eq a a = true ↔ a ≠ Double.nan := by
  cases a <;> simp [Double.eq]

/-- Equal handles have the same discriminant. -/
theorem json_eq_type (l r : json) (h : json.eq l r = true) :
    jvalue.type l = jvalue.type r := by
  simp only [json.eq, Bool.and_eq_true, decide_eq_true_eq] at h
  exact h.1

/-- C11: handles of different discriminants are unequal: `l == r` is false and
`l != r` is true, as for `json(0)` and `json(false)`, `json("")` and
`json(nullptr)`, an empty object and an empty array; and `l != r` is the negation of
`l == r` for all handles. -/
theorem different_discriminants_unequal :
    (∀ l r : json, json.value_type l ≠ json.value_type r →
      json.eq l r = false ∧ json.ne l r = true) ∧
    (∀ l r : json, json.ne l r = !(json.eq l r)) ∧
    json.ne (json.json_int 0) (json.json_bool false) = true ∧
    json.ne (json.json_string "") json.json_nullptr = true ∧
    json.ne (json.json_object []) (json.json_array []) = true := by
  refine ⟨?_, fun _ _ => rfl, rfl, rfl, rfl⟩
  intro l r h
  have hne : ¬ jvalue.type l = jvalue.type r := h
  simp [json.eq, json.ne, hne]

/-- Equality is symmetric on the trees with unique keys. -/
theorem json_eq_symm : ∀ a b : json, jvalue.keys_unique a = true →
    jvalue.keys_unique b = true → json.eq a b = true → json.eq b a = true := by
  intro a
  refine jvalue_induction
    (fun a => ∀ b : json, jvalue.keys_unique a = true → jvalue.keys_unique b = true →
      json.eq a b = true → json.eq b a = true) ?_ ?_ ?_ ?_ ?_ ?_ ?_ a
  · intro b _ _ h
    cases b <;> simp_all [json.eq, jvalue.type, jvalue.equals_to_unsafe]
  · intro x b _ _ h
    cases b <;> simp_all [json.eq, jvalue.type, jvalue.equals_to_unsafe]
  · intro x b _ _ h
    cases b <;> simp_all [json.eq, jvalue.type, jvalue.equals_to_unsafe, Double_eq_symm]
  · intro x b _ _ h
    cases b <;> simp_all [json.eq, jvalue.type, jvalue.equals_to_unsafe, Double_eq_symm]
  · intro x b _ _ h
    cases b <;> simp_all [json.eq, jvalue.type, jvalue.equals_to_unsafe]
  · intro m ih b ha hb h
    cases b with
    | jobject n =>
      obtain ⟨hm, hmv⟩ := (keys_unique_jobject m).mp ha
      obtain ⟨hn, hnv⟩ := (keys_unique_jobject n).mp hb
      obtain ⟨hkeys, hvals⟩ := (object_eq_iff m n hm hn).mp h
      refine (object_eq_iff n m hn hm).mpr ⟨fun k => (hkeys k).symm, ?_⟩
      intro k y x hy hx
      have hxm := object_find_mem m k x hx
      have hyn := object_find_mem n k y hy
      exact ih k x hxm y (hmv k x hxm) (hnv k y hyn) (hvals k x y hx hy)
    | _ => simp [json.eq, jvalue.type] at h
  · intro xs ih b ha hb h
    cases b with
    | jarray ys =>
      have hxs := (keys_unique_jarray xs).mp ha
      have hys := (keys_unique_jarray ys).mp hb
      obtain ⟨hlen, hvals⟩ := (array_eq_iff xs ys).mp h
      refine (array_eq_iff ys xs).mpr ⟨hlen.symm, ?_⟩
      intro i y x hy hx
      have hxm : x ∈ xs := List.get?_mem hx
      have hym : y ∈ ys := List.get?_mem hy
      exact ih x hxm y (hxs x hxm) (hys y hym) (hvals i x y hx hy)
    | _ => simp [json.eq, jvalue.type] at h

/-- Equality is transitive on the trees with unique keys. -/
theorem json_eq_trans : ∀ a b c : json, jvalue.keys_unique a = true →
    jvalue.keys_unique b = true → jvalue.keys_unique c = true →
    json.eq a b = true → json.eq b c = true → json.eq a c = true := by
  intro a
  refine jvalue_induction
    (fun a => ∀ b c : json, jvalue.keys_unique a = true → jvalue.keys_unique b = true →
      jvalue.keys_unique c = true → json.eq a b = true → json.eq b c = true →
      json.eq a c = true) ?_ ?_ ?_ ?_ ?_ ?_ ?_ a
  · intro b c _ _ _ hab hbc
    cases b <;> cases c <;> simp_all [json.eq, jvalue.type, jvalue.equals_to_unsafe]
  · intro x b c _ _ _ hab hbc
    cases b <;> cases c <;> simp_all [json.eq, jvalue.type, jvalue.equals_to_unsafe]
  · intro x b c _ _ _ hab hbc
    cases b <;> cases c <;>
      simp [json.eq, jvalue.type, jvalue.equals_to_unsafe] at hab hbc ⊢ <;>
      exact Double_eq_trans _ _ _ hab hbc
  · intro x b c _ _ _ hab hbc
    cases b <;> cases c <;>
      simp [json.eq, jvalue.type, jvalue.equals_to_unsafe] at hab hbc ⊢ <;>
      exact Double_eq_trans _ _ _ hab hbc
  · intro x b c _ _ _ hab hbc
    cases b <;> cases c <;> simp_all [json.eq, jvalue.type, jvalue.equals_to_unsafe]
  · intro m ih b c ha hb hc hab hbc
    cases b with
    | jobject n =>
      cases c with
      | jobject p =>
        obtain ⟨hm, hmv⟩ := (keys_unique_jobject m).mp ha
        obtain ⟨hn, hnv⟩ := (keys_unique_jobject n).mp hb
        obtain ⟨hp, hpv⟩ := (keys_unique_jobject p).mp hc
        obtain ⟨hk1, hv1⟩ := (object_eq_iff m n hm hn).mp hab
        obtain ⟨hk2, hv2⟩ := (object_eq_iff n p hn hp).mp hbc
        refine (object_eq_iff m p hm hp).mpr ⟨fun k => (hk1 k).trans (hk2 k), ?_⟩
        intro k x z hx hz
        have hs : (object_find n k).isSome = true := by rw [← hk1 k, hx]; rfl
        obtain ⟨y, hy⟩ := Option.isSome_iff_exists.mp hs
        have hxm := object_find_mem m k x hx
        exact ih k x hxm y z (hmv k x hxm) (hnv k y (object_find_mem n k y hy))
          (hpv k z (object_find_mem p k z hz)) (hv1 k x y hx hy) (hv2 k y z hy hz)
      | _ => simp [json.eq, jvalue.type] at hbc
    | _ => simp [json.eq, jvalue.type] at hab
  · intro xs ih b c ha hb hc hab hbc
    cases b with
    | jarray ys =>
      cases c with
      | jarray zs =>
        have hxs := (keys_unique_jarray xs).mp ha
        have hys := (keys_unique_jarray ys).mp hb
        have hzs := (keys_unique_jarray zs).mp hc
        obtain ⟨hl1, hv1⟩ := (array_eq_iff xs ys).mp hab
        obtain ⟨hl2, hv2⟩ := (array_eq_iff ys zs).mp hbc
        refine (array_eq_iff xs zs).mpr ⟨hl1.trans hl2, ?_⟩
        intro i x z hx hz
        have hi : i < ys.length := by
          have := (List.get?_eq_some.mp hx).1
          omega
        have hy : ys.get? i = some (ys.get ⟨i, hi⟩) := List.get?_eq_get hi
        have hxm : x ∈ xs := List.get?_mem hx
        exact ih x hxm _ z (hxs x hxm) (hys _ (List.get?_mem hy)) (hzs z (List.get?_mem hz))
          (hv1 i x _ hx hy) (hv2 i _ z hy hz)
      | _ => simp [json.eq, jvalue.type] at hbc
    | _ => simp [json.eq, jvalue.type] at hab

/-- C19: `operator==` is symmetric and transitive on all handles (their objects have
unique keys at every depth, as every `json::object` has): `a == b` and `b == a` have
the same result, and `a == b` with `b == c` gives `a == c`; this holds across the
int and double sub-kinds of the numbers and through nested objects and arrays. -/
theorem operator_eq_symmetric_transitive (a b c : json)
    (ha : jvalue.keys_unique a = true) (hb : jvalue.keys_unique b = true)
    (hc : jvalue.keys_unique c = true) :
    (json.eq a b = true → json.eq b a = true) ∧
    json.eq a b = json.eq b a ∧
    (json.eq a b = true → json.eq b c = true → json.eq a c = true) := by
  refine ⟨json_eq_symm a b ha hb, ?_, json_eq_trans a b c ha hb hc⟩
  cases h1 : json.eq a b with
  | true => exact (json_eq_symm a b ha hb h1).symm
  | false =>
    cases h2 : json.eq b a with
    | false => rfl
    | true =>
      have := json_eq_symm b a hb ha h2
      rw [h1] at this
      exact this

/-- C19 at the arrays `[1, (k: 2.0)]`, `[1.0, (k: 2)]` and `[1, (k: 2)]`, which mix
the sub-kinds of the numbers under an array and an object. -/
theorem operator_eq_symmetric_transitive_witness :
    jvalue.keys_unique (.jarray [.jint 1, .jobject [("k", .jdouble (Double.fin 2))]]) = true ∧
    jvalue.keys_unique (.jarray [.jdouble (Double.fin 1), .jobject [("k", .jint 2)]]) = true ∧
    jvalue.keys_unique (.jarray [.jint 1, .jobject [("k", .jint 2)]]) = true ∧
    (json.eq (.jarray [.jint 1, .jobject [("k", .jdouble (Double.fin 2))]])
        (.jarray [.jdouble (Double.fin 1), .jobject [("k", .jint 2)]]) = true →
      json.eq (.jarray [.jdouble (Double.fin 1), .jobject [("k", .jint 2)]])
        (.jarray [.jint 1, .jobject [("k", .jdouble (Double.fin 2))]]) = true) ∧
    (json.eq (.jarray [.jint 1, .jobject [("k", .jdouble (Double.fin 2))]])
        (.jarray [.jdouble (Double.fin 1), .jobject [("k", .jint 2)]]) = true →
      json.eq (.jarray [.jdouble (Double.fin 1), .jobject [("k", .jint 2)]])
        (.jarray [.jint 1, .jobject [("k", .jint 2)]]) = true →
      json.eq (.jarray [.jint 1, .jobject [("k", .jdouble (Double.fin 2))]])
        (.jarray [.jint 1, .jobject [("k", .jint 2)]]) = true) :=
  ⟨by decide, by decide, by decide,
   (operator_eq_symmetric_transitive
      (.jarray [.jint 1, .jobject [("k", .jdouble (Double.fin 2))]])
      (.jarray [.jdouble (Double.fin 1), .jobject [("k", .jint 2)]])
      (.jarray [.jint 1, .jobject [("k", .jint 2)]]) (by decide) (by decide) (by decide)).1,
   (operator_eq_symmetric_transitive
      (.jarray [.jint 1, .jobject [("k", .jdouble (Double.fin 2))]])
      (.jarray [.jdouble (Double.fin 1), .jobject [("k", .jint 2)]])
      (.jarray [.jint 1, .jobject [("k", .jint 2)]]) (by decide) (by decide) (by decide)).2.2⟩

/-! ## Round trip of a copy -/

/-- A handle that equals itself holds no NaN. -/
theorem nan_free_of_eq_self : ∀ v : json, jvalue.keys_unique v = true →
    json.eq v v = true → jvalue.nan_free v = true := by
  intro v
  refine jvalue_induction
    (fun v => jvalue.keys_unique v = true → json.eq v v = true → jvalue.nan_free v = true)
    ?_ ?_ ?_ ?_ ?_ ?_ ?_ v
  · intro _ _; rfl
  · intro _ _ _; rfl
  · intro _ _ _; rfl
  · intro d _ h
    have hd : Double.eq d d = true := by
      simpa [json.eq, jvalue.type, jvalue.equals_to_unsafe] using h
    simpa [jvalue.nan_free] using (Double_eq_self d).mp hd
  · intro _ _ _; rfl
  · intro m ih hk h
    obtain ⟨hm, hmv⟩ := (keys_unique_jobject m).mp hk
    refine (nan_free_jobject m).mpr ?_
    intro k x hmem
    have hx := object_find_of_mem m hm k x hmem
    exact ih k x hmem (hmv k x hmem) (object_eq_values m m h k x x hx hx)
  · intro xs ih hk h
    have hxs := (keys_unique_jarray xs).mp hk
    refine (nan_free_jarray xs).mpr ?_
    intro x hmem
    obtain ⟨i, hi⟩ := List.mem_iff_get?.mp hmem
    exact ih x hmem (hxs x hmem) (((array_eq_iff xs xs).mp h).2 i x x hi hi)

/-- C12 fails for a NaN: the copy of `json(NaN)` does not compare equal to the
original, nor does the copy of an array that holds a NaN. -/
theorem clone_of_nan_unequal :
    json.eq (json.json_copy (json.json_double Double.nan)) (json.json_double Double.nan)
      = false ∧
    json.eq (json.json_copy (json.json_array [json.json_int 1, json.json_double Double.nan]))
      (json.json_array [json.json_int 1, json.json_double Double.nan]) = false := by
  constructor <;>
    simp [json.eq, json.json_copy, jvalue.clone, array_copy, json.json_array, json.json_double,
      json.json_int, jvalue.int_instance, jvalue.array_instance, jvalue.double_instance,
      jvalue.type, jvalue.equals_to_unsafe, array_eq, Double.eq]

/-- C12, amended: for any constructed value `v`, of any discriminant and any nesting
of objects and arrays, that holds no NaN double at any depth, the copy constructed
handle satisfies `clone(v) == v` (and `v == clone(v)`); a value that holds a NaN is
not equal to its copy. -/
theorem clone_round_trip (v : json) (hk : jvalue.keys_unique v = true) :
    (jvalue.nan_free v = true →
      json.eq (json.json_copy v) v = true ∧ json.eq v (json.json_copy v) = true) ∧
    (json.eq (json.json_copy v) v = true ↔ jvalue.nan_free v = true) := by
  have hc : json.json_copy v = v := clone_eq_self v
  rw [hc]
  refine ⟨fun hn => ⟨json_eq_refl v hk hn, json_eq_refl v hk hn⟩, ?_⟩
  exact ⟨nan_free_of_eq_self v hk, json_eq_refl v hk⟩

/-- C12 amended, at the object `(a: [1, 2.5, "s", true, null])`. -/
theorem clone_round_trip_witness :
    jvalue.keys_unique (.jobject [("a", .jarray [.jint 1, .jdouble (Double.fin (5 / 2)),
      .jstring "s", .jboolean true, .jnull])]) = true ∧
    jvalue.nan_free (.jobject [("a", .jarray [.jint 1, .jdouble (Double.fin (5 / 2)),
      .jstring "s", .jboolean true, .jnull])]) = true ∧
    json.eq (json.json_copy (.jobject [("a", .jarray [.jint 1, .jdouble (Double.fin (5 / 2)),
      .jstring "s", .jboolean true, .jnull])]))
      (.jobject [("a", .jarray [.jint 1, .jdouble (Double.fin (5 / 2)),
      .jstring "s", .jboolean true, .jnull])]) = true :=
  ⟨by decide, by decide,
   ((clone_round_trip (.jobject [("a", .jarray [.jint 1, .jdouble (Double.fin (5 / 2)),
      .jstring "s", .jboolean true, .jnull])]) (by decide)).1 (by decide)).1⟩

/-! ## The reclaimer -/

/-- The loop of `start_delete` returns with an empty buffer. -/
theorem start_delete_loop_returns_empty : ∀ (fuel i : Nat) (m m2 : memory),
    json_flat_deleter.start_delete_loop fuel i m = .returned m2 → m2.jvalues = [] := by
  intro fuel
  induction fuel with
  | zero =>
    intro i m m2 h
    simp [json_flat_deleter.start_delete_loop] at h
  | succ f ih =>
    intro i m m2 h
    rw [json_flat_deleter.start_delete_loop] at h
    by_cases hi : i ≠ m.jvalues.length
    · rw [if_pos hi] at h
      cases hg : m.jvalues.get? i with
      | none =>
        rw [hg] at h
        exact absurd h (by simp)
      | some p =>
        rw [hg] at h
        cases hd : delete_node f p m with
        | returned m3 =>
          simp only [hd] at h
          exact ih (i + 1) m3 m2 h
        | double_delete a m3 =>
          simp only [hd] at h
          exact absurd h (by simp)
        | out_of_range m3 =>
          simp only [hd] at h
          exact absurd h (by simp)
        | out_of_fuel =>
          simp only [hd] at h
          exact absurd h (by simp)
    · rw [if_neg hi] at h
      injection h with h
      rw [← h]

/-- When `add_value` returns, the buffer holds at most 16 nodes. -/
theorem add_value_returns_bounded (fuel : Nat) (v : node) (m m2 : memory)
    (h : json_flat_deleter.add_value fuel v m = .returned m2) : m2.jvalues.length ≤ 16 := by
  cases fuel with
  | zero => simp [json_flat_deleter.add_value] at h
  | succ f =>
    rw [json_flat_deleter.add_value] at h
    by_cases hl : (m.jvalues ++ [v]).length > 16
    · rw [if_pos hl] at h
      cases f with
      | zero => simp [json_flat_deleter.start_delete] at h
      | succ g =>
        rw [json_flat_deleter.start_delete] at h
        rw [start_delete_loop_returns_empty g 0 _ m2 h]
        simp
    · rw [if_neg hl] at h
      injection h with h
      rw [← h]
      exact Nat.le_of_not_lt hl

/-- Below the threshold `add_value` appends the node and deallocates nothing. -/
theorem add_value_below_threshold (fuel : Nat) (v : node) (m : memory)
    (h : m.jvalues.length < 16) :
    json_flat_deleter.add_value (fuel + 1) v m
      = .returned { jvalues := m.jvalues ++ [v], freed := m.freed } := by
  have hl : ¬ (m.jvalues ++ [v]).length > 16 := by
    simp
    omega
  rw [json_flat_deleter.add_value, if_neg hl]

/-- The call `add_value` never returns with the state it was called in. -/
theorem add_value_changes (fuel : Nat) (v : node) (m : memory) :
    json_flat_deleter.add_value fuel v m ≠ .returned m := by
  intro h
  have hb := add_value_returns_bounded fuel v m m h
  cases fuel with
  | zero => simp [json_flat_deleter.add_value] at h
  | succ f =>
    rw [json_flat_deleter.add_value] at h
    by_cases hl : (m.jvalues ++ [v]).length > 16
    · rw [if_pos hl] at h
      cases f with
      | zero => simp [json_flat_deleter.start_delete] at h
      | succ g =>
        rw [json_flat_deleter.start_delete] at h
        have := start_delete_loop_returns_empty g 0 _ m h
        rw [this] at hl
        simp at hl
    · rw [if_neg hl] at h
      injection h with h
      have := congrArg (fun x => x.jvalues.length) h
      simp at this

/-- C16: `dispose_node` hands a node to the reclaimer (calls `add_value` on it) if and
only if the pointer is not null and the discriminant of the node is NUMBER, STRING,
OBJECT or ARRAY; for a null pointer, a Null node and a Boolean node it returns with
the buffer as it was and nothing deallocated.  With room in the buffer, the node
handed over is appended to it. -/
theorem dispose_node_routing (fuel : Nat) (n : node) (m : memory) :
    json.dispose_node (fuel + 1) none m = .returned m ∧
    (node.type n = .NUL ∨ node.type n = .BOOLEAN →
      json.dispose_node (fuel + 1) (some n) m = .returned m) ∧
    (node.type n = .NUMBER ∨ node.type n = .STRING ∨ node.type n = .OBJECT ∨
        node.type n = .ARRAY →
      json.dispose_node (fuel + 1) (some n) m = json_flat_deleter.add_value fuel n m) ∧
    (json.dispose_node (fuel + 1) (some n) m = json_flat_deleter.add_value fuel n m ↔
      (node.type n = .NUMBER ∨ node.type n = .STRING ∨ node.type n = .OBJECT ∨
        node.type n = .ARRAY)) ∧
    (node.type n = .NUMBER ∨ node.type n = .STRING ∨ node.type n = .OBJECT ∨
        node.type n = .ARRAY → m.jvalues.length < 16 →
      json.dispose_node (fuel + 2) (some n) m
        = .returned { jvalues := m.jvalues ++ [n], freed := m.freed }) := by
  have hrec : (node.type n = .NUMBER ∨ node.type n = .STRING ∨ node.type n = .OBJECT ∨
      node.type n = .ARRAY) → reclaimable (node.type n) = true := by
    intro h
    rcases h with h | h | h | h <;> rw [h] <;> rfl
  have hnot : (node.type n = .NUL ∨ node.type n = .BOOLEAN) →
      reclaimable (node.type n) = false := by
    intro h
    rcases h with h | h <;> rw [h] <;> rfl
  have hcases : (node.type n = .NUL ∨ node.type n = .BOOLEAN) ∨
      (node.type n = .NUMBER ∨ node.type n = .STRING ∨ node.type n = .OBJECT ∨
        node.type n = .ARRAY) := by
    cases n <;> simp [node.type]
  refine ⟨rfl, ?_, ?_, ?_, ?_⟩
  · intro h
    simp [json.dispose_node, hnot h]
  · intro h
    simp [json.dispose_node, hrec h]
  · constructor
    · intro h
      rcases hcases with hc | hc
      · rw [json.dispose_node, hnot hc] at h
        exact absurd h.symm (add_value_changes fuel n m)
      · exact hc
    · intro h
      simp [json.dispose_node, hrec h]
  · intro h hl
    rw [json.dispose_node, hrec h, if_pos rfl]
    exact add_value_below_threshold fuel n m hl

/-- C16 at the number node `7` at address 5 and an empty buffer: the node is
appended. -/
theorem dispose_node_routing_witness :
    (node.type (.jint 5 7) = .NUMBER ∨ node.type (.jint 5 7) = .STRING ∨
      node.type (.jint 5 7) = .OBJECT ∨ node.type (.jint 5 7) = .ARRAY) ∧
    (⟨[], []⟩ : memory).jvalues.length < 16 ∧
    json.dispose_node (0 + 2) (some (.jint 5 7)) ⟨[], []⟩
      = .returned { jvalues := [] ++ [.jint 5 7], freed := [] } :=
  ⟨Or.inl rfl, by decide,
   (dispose_node_routing 0 (.jint 5 7) ⟨[], []⟩).2.2.2.2 (Or.inl rfl) (by decide)⟩

/-- Destroying handles that hold Null and Boolean nodes only releases nothing. -/
theorem destroy_handles_quiet : ∀ (cs : List node) (m : memory) (fuel : Nat),
    (∀ c ∈ cs, reclaimable (node.type c) = false) → cs.length + 1 ≤ fuel →
    destroy_handles fuel cs m = .returned m := by
  intro cs
  induction cs with
  | nil =>
    intro m fuel _ hf
    cases fuel with
    | zero => simp at hf
    | succ f => rfl
  | cons c t ih =>
    intro m fuel hq hf
    cases fuel with
    | zero => simp at hf
    | succ f =>
      cases f with
      | zero => simp at hf
      | succ g =>
        have hc : reclaimable (node.type c) = false := hq c (List.mem_cons_self c t)
        have hd : json.dispose_node (g + 1) (some c) m = .returned m := by
          simp [json.dispose_node, hc]
        rw [destroy_handles, hd]
        exact ih m (g + 1) (fun x hx => hq x (List.mem_cons_of_mem c hx))
          (by simp at hf; omega)

/-- Deleting a node whose handles release nothing records the deallocation and leaves
the buffer as it is. -/
theorem delete_node_quiet (p : node) (m : memory) (fuel : Nat)
    (hq : node.quiet p = true) (hfresh : node.addr p ∉ m.freed)
    (hf : (node.children p).length + 2 ≤ fuel) :
    delete_node fuel p m
      = .returned { jvalues := m.jvalues, freed := m.freed ++ [node.addr p] } := by
  cases fuel with
  | zero => simp at hf
  | succ f =>
    rw [delete_node, if_neg hfresh]
    apply destroy_handles_quiet
    · intro c hc
      have := (List.all_eq_true.mp hq) c hc
      simpa using this
    · omega

/-- The loop of `start_delete` over nodes whose handles release nothing: every node
from index `i` on is deallocated once, in order, and the buffer is cleared. -/
theorem start_delete_loop_quiet (C : Nat) : ∀ (rest done_ : List node) (m : memory)
    (fuel : Nat), m.jvalues = done_ ++ rest →
    (∀ p ∈ rest, node.quiet p = true ∧ (node.children p).length ≤ C) →
    (rest.map node.addr).Nodup → (∀ p ∈ rest, node.addr p ∉ m.freed) →
    rest.length + C + 3 ≤ fuel →
    json_flat_deleter.start_delete_loop fuel done_.length m
      = .returned { jvalues := [], freed := m.freed ++ rest.map node.addr } := by
  intro rest
  induction rest with
  | nil =>
    intro done_ m fuel hj _ _ _ hf
    cases fuel with
    | zero => simp at hf
    | succ f =>
      have hi : ¬ done_.length ≠ m.jvalues.length := by simp [hj]
      rw [json_flat_deleter.start_delete_loop, if_neg hi]
      simp
  | cons p t ih =>
    intro done_ m fuel hj hq hnd hfresh hf
    cases fuel with
    | zero => simp at hf
    | succ f =>
      have hi : done_.length ≠ m.jvalues.length := by
        simp [hj]
      have hg : m.jvalues.get? done_.length = some p := by
        rw [hj, List.get?_eq_getElem?, List.getElem?_append_right (Nat.le_refl _)]
        simp
      have hp := hq p (List.mem_cons_self p t)
      have hd := delete_node_quiet p m f hp.1 (hfresh p (List.mem_cons_self p t))
        (by simp at hf; omega)
      rw [json_flat_deleter.start_delete_loop, if_pos hi, hg]
      simp only [hd]
      have hnd2 : node.addr p ∉ t.map node.addr ∧ (t.map node.addr).Nodup := by
        simpa using hnd
      have hlen : (done_ ++ [p]).length = done_.length + 1 := by simp
      rw [← hlen]
      rw [ih (done_ ++ [p]) _ f (by simp [hj])
        (fun q hq2 => hq q (List.mem_cons_of_mem p hq2)) hnd2.2 ?_ (by simp at hf; omega)]
      · simp
      · intro q hq2
        simp only [List.mem_append, List.mem_singleton, not_or]
        refine ⟨hfresh q (List.mem_cons_of_mem p hq2), ?_⟩
        intro he
        exact hnd2.1 (he ▸ List.mem_map_of_mem node.addr hq2)

/-- At the threshold, when no handle of the 17 nodes releases a node: `add_value`
deallocates the 16 buffered nodes and the new one, each once, and leaves the buffer
empty. -/
theorem add_value_flush_quiet (v : node) (m : memory) (C fuel : Nat)
    (hlen : m.jvalues.length = 16)
    (hq : ∀ p ∈ m.jvalues ++ [v], node.quiet p = true ∧ (node.children p).length ≤ C)
    (hnd : ((m.jvalues ++ [v]).map node.addr).Nodup)
    (hfresh : ∀ p ∈ m.jvalues ++ [v], node.addr p ∉ m.freed)
    (hf : C + 22 ≤ fuel) :
    json_flat_deleter.add_value fuel v m
      = .returned { jvalues := [], freed := m.freed ++ (m.jvalues ++ [v]).map node.addr } := by
  obtain ⟨f, rfl⟩ : ∃ f, fuel = f + 2 := ⟨fuel - 2, by omega⟩
  have hl : (m.jvalues ++ [v]).length > 16 := by simp [hlen]
  rw [json_flat_deleter.add_value, if_pos hl, json_flat_deleter.start_delete]
  have := start_delete_loop_quiet C (m.jvalues ++ [v]) [] { m with jvalues := m.jvalues ++ [v] }
    f (by simp) hq hnd hfresh (by simp [hlen]; omega)
  simpa using this

/-- C17, evaluated at a buffer that holds sixteen numbers and the release of an array
that holds a number: the 17 nodes are not each deallocated once with the buffer left
empty.  While the array is deleted, its handle releases the number it holds, the
buffer has 18 nodes, `add_value` calls `start_delete` again, and that call starts at
index 0 and calls `delete` a second time on the first node (address 10).  This is the
defect of C18. -/
theorem add_value_flush_with_child :
    sixteen_numbers.length = 16 ∧
    (json_flat_deleter.add_value 40 (.jarray 30 [.jint 31 7])
      ⟨sixteen_numbers, []⟩).jvalues.isNone = true ∧
    (json_flat_deleter.add_value 40 (.jarray 30 [.jint 31 7])
      ⟨sixteen_numbers, []⟩).deleted_twice = some 10 ∧
    (json_flat_deleter.add_value 40 (.jarray 30 [.jint 31 7]) ⟨sixteen_numbers, []⟩).freed
      = some [10, 11, 12, 13, 14, 15, 16, 17, 18, 19, 20, 21, 22, 23, 24, 25, 30] := by
  refine ⟨rfl, ?_, ?_, ?_⟩ <;> decide!

/-- C18, evaluated at the destruction of seventeen handles, sixteen holding a string
and the last holding the object `(k: "x")`: the 17th release reaches the threshold,
`start_delete` deletes the sixteen strings and then the object, whose handle releases
the string `"x"` into the buffer; `add_value` then calls `start_delete` again, which
starts at index 0 and passes the first string (address 10) to `delete` a second
time. -/
theorem flush_reentry_deletes_twice :
    (destroy_all 40 seventeen_handles ⟨[], []⟩).deleted_twice = some 10 ∧
    (destroy_all 40 seventeen_handles ⟨[], []⟩).freed
      = some [10, 11, 12, 13, 14, 15, 16, 17, 18, 19, 20, 21, 22, 23, 24, 25, 30] ∧
    (destroy_all 40 seventeen_handles ⟨[], []⟩).jvalues.isNone = true := by
  refine ⟨?_, ?_, ?_⟩ <;> decide!

/-! ## Moving and cloning, at the pointer level -/

/-- Move assignment hands the node over and clears the source, so the destruction of
the source releases nothing. -/
theorem move_assignment_clears_source (fuel : Nat) (d s : handle) (m m2 : memory) :
    (handle.assign_move fuel d s m).1 = ⟨s._node⟩ ∧
    (handle.assign_move fuel d s m).2.1 = ⟨none⟩ ∧
    (handle.assign_move fuel d s m).2.2 = json.dispose_node fuel d._node m ∧
    handle.destroy (fuel + 1) (handle.assign_move fuel d s m).2.1 m2 = .returned m2 :=
  ⟨rfl, rfl, rfl, rfl⟩

/-- Move construction hands the node to the new handle and leaves the source as it
was. -/
theorem move_construction_copies_pointer (s : handle) :
    (handle.json_move s).1 = ⟨s._node⟩ ∧ (handle.json_move s).2 = s :=
  ⟨rfl, rfl⟩

/-- C13, evaluated at the move construction `json d(std::move(s))` from a handle `s`
that holds the number 42 at address 5: `d` holds the node, and `s` still holds it
(its pointer is not cleared), so the node has two owning handles; the destruction of
both releases the node twice, the buffer holds it twice, and the flush calls `delete`
on it twice. -/
theorem move_constructor_keeps_source :
    (handle.json_move ⟨some (.jint 5 42)⟩).1._node.map node.addr = some 5 ∧
    (handle.json_move ⟨some (.jint 5 42)⟩).2._node.map node.addr = some 5 ∧
    (handle.json_move ⟨some (.jint 5 42)⟩).2._node.isSome = true ∧
    (destroy_both 3 (handle.json_move ⟨some (.jint 5 42)⟩).1
      (handle.json_move ⟨some (.jint 5 42)⟩).2 ⟨[], []⟩).jvalues.map (List.map node.addr)
      = some [5, 5] ∧
    (json_flat_deleter.start_delete 10 ⟨[.jint 5 42, .jint 5 42], []⟩).deleted_twice
      = some 5 := by
  refine ⟨?_, ?_, ?_, ?_, ?_⟩ <;> decide

/-- The clone of a `jnull` is the same object; the clone of a `jboolean` is a new
object at the next address. -/
theorem clone_of_singletons (a next : Nat) (b : Bool) :
    node.clone (.jnull a) next = (.jnull a, next) ∧
    node.clone (.jboolean a b) next = (.jboolean next b, next + 1) :=
  ⟨rfl, rfl⟩

/-- C15, evaluated at the copy of a handle that holds `true`: `jboolean::clone`
returns a new `jboolean` object at the next heap address, not the static of
`true_instance` (and likewise for `false`), so the copy points at a fourth node and a
Boolean node has been allocated.  The clone of the Null node is the static itself. -/
theorem boolean_clone_allocates :
    node.addr (node.clone node.true_instance HEAP_BASE).1 = HEAP_BASE ∧
    node.addr (node.clone node.true_instance HEAP_BASE).1 ≠ node.addr node.true_instance ∧
    (node.clone node.true_instance HEAP_BASE).2 = HEAP_BASE + 1 ∧
    node.addr (node.clone node.false_instance HEAP_BASE).1 ≠ node.addr node.false_instance ∧
    (handle.json_copy (handle.json_bool true) HEAP_BASE).map
      (fun r => (r.1._node.map node.addr, r.2)) = some (some HEAP_BASE, HEAP_BASE + 1) ∧
    node.addr (node.clone node.null_instance HEAP_BASE).1 = node.addr node.null_instance ∧
    (node.clone node.null_instance HEAP_BASE).2 = HEAP_BASE := by
  refine ⟨?_, ?_, ?_, ?_, ?_, ?_, ?_⟩ <;> decide

/-! ## Independence of a copy -/

mutual
/-- Induction over a tree of node objects. -/
theorem node_induction (P : node → Prop) (hnull : ∀ a, P (.jnull a))
    (hbool : ∀ a b, P (.jboolean a b)) (hint : ∀ a i, P (.jint a i))
    (hdouble : ∀ a d, P (.jdouble a d)) (hstring : ∀ a s, P (.jstring a s))
    (hobj : ∀ a (m : List (String × node)), (∀ k v, (k, v) ∈ m → P v) → P (.jobject a m))
    (harr : ∀ a (l : List node), (∀ x ∈ l, P x) → P (.jarray a l)) : ∀ v : node, P v
  | .jnull a => hnull a
  | .jboolean a b => hbool a b
  | .jint a i => hint a i
  | .jdouble a d => hdouble a d
  | .jstring a s => hstring a s
  | .jobject a m =>
    hobj a m (node_object_induction P hnull hbool hint hdouble hstring hobj harr m)
  | .jarray a l =>
    harr a l (node_array_induction P hnull hbool hint hdouble hstring hobj harr l)
/-- Induction over a tree of node objects, for the handles of an object payload. -/
theorem node_object_induction (P : node → Prop) (hnull : ∀ a, P (.jnull a))
    (hbool : ∀ a b, P (.jboolean a b)) (hint : ∀ a i, P (.jint a i))
    (hdouble : ∀ a d, P (.jdouble a d)) (hstring : ∀ a s, P (.jstring a s))
    (hobj : ∀ a (m : List (String × node)), (∀ k v, (k, v) ∈ m → P v) → P (.jobject a m))
    (harr : ∀ a (l : List node), (∀ x ∈ l, P x) → P (.jarray a l)) :
    ∀ (m : List (String × node)) (k : String) (v : node), (k, v) ∈ m → P v
  | [], _, _, h => absurd h (List.not_mem_nil _)
  | (_, v1) :: t, k, v, h => by
    rcases List.mem_cons.mp h with heq | hmem
    · injection heq with _ h2
      rw [h2]
      exact node_induction P hnull hbool hint hdouble hstring hobj harr v1
    · exact node_object_induction P hnull hbool hint hdouble hstring hobj harr t k v hmem
/-- Induction over a tree of node objects, for the elements of an array payload. -/
theorem node_array_induction (P : node → Prop) (hnull : ∀ a, P (.jnull a))
    (hbool : ∀ a b, P (.jboolean a b)) (hint : ∀ a i, P (.jint a i))
    (hdouble : ∀ a d, P (.jdouble a d)) (hstring : ∀ a s, P (.jstring a s))
    (hobj : ∀ a (m : List (String × node)), (∀ k v, (k, v) ∈ m → P v) → P (.jobject a m))
    (harr : ∀ a (l : List node), (∀ x ∈ l, P x) → P (.jarray a l)) :
    ∀ (l : List node) (x : node), x ∈ l → P x
  | [], _, h => absurd h (List.not_mem_nil _)
  | v1 :: t, x, h => by
    rcases List.mem_cons.mp h with heq | hmem
    · rw [heq]
      exact node_induction P hnull hbool hint hdouble hstring hobj harr v1
    · exact node_array_induction P hnull hbool hint hdouble hstring hobj harr t x hmem
end

/-- The clone of an object payload, from the clones of its handles. -/
theorem object_clone_spec (m : List (String × node))
    (ih : ∀ k v, (k, v) ∈ m → clone_spec v) :
    ∀ next : Nat,
      next ≤ (object_clone m next).2 ∧
      (∀ a ∈ object_owned_addrs (object_clone m next).1,
        next ≤ a ∧ a < (object_clone m next).2) ∧
      (∀ bound, object_placed bound m = true →
        ∀ a ∈ object_addrs (object_clone m next).1, next ≤ a ∨ a = NULL_ADDR) ∧
      object_values (object_clone m next).1 = object_values m := by
  induction m with
  | nil =>
    intro next
    simp [object_clone, object_owned_addrs, object_addrs, object_values]
  | cons e t iht =>
    obtain ⟨k1, v1⟩ := e
    intro next
    obtain ⟨h1, h2, h3, h4⟩ := ih k1 v1 (List.mem_cons_self _ _) next
    obtain ⟨t1, t2, t3, t4⟩ :=
      iht (fun k v hm => ih k v (List.mem_cons_of_mem _ hm)) (node.clone v1 next).2
    simp only [object_clone, object_owned_addrs, object_addrs, object_values, h4, t4,
      List.mem_append, object_placed, Bool.and_eq_true]
    refine ⟨Nat.le_trans h1 t1, ?_, ?_, trivial⟩
    · rintro a (ha | ha)
      · exact ⟨(h2 a ha).1, Nat.lt_of_lt_of_le (h2 a ha).2 t1⟩
      · exact ⟨Nat.le_trans h1 (t2 a ha).1, (t2 a ha).2⟩
    · rintro bound ⟨hp1, hp2⟩ a (ha | ha)
      · exact h3 bound hp1 a ha
      · rcases t3 bound hp2 a ha with h | h
        · exact Or.inl (Nat.le_trans h1 h)
        · exact Or.inr h

/-- The clone of an array payload, from the clones of its elements. -/
theorem array_clone_spec (l : List node) (ih : ∀ x ∈ l, clone_spec x) :
    ∀ next : Nat,
      next ≤ (array_clone l next).2 ∧
      (∀ a ∈ array_owned_addrs (array_clone l next).1,
        next ≤ a ∧ a < (array_clone l next).2) ∧
      (∀ bound, array_placed bound l = true →
        ∀ a ∈ array_addrs (array_clone l next).1, next ≤ a ∨ a = NULL_ADDR) ∧
      array_values (array_clone l next).1 = array_values l := by
  induction l with
  | nil =>
    intro next
    simp [array_clone, array_owned_addrs, array_addrs, array_values]
  | cons v1 t iht =>
    intro next
    obtain ⟨h1, h2, h3, h4⟩ := ih v1 (List.mem_cons_self _ _) next
    obtain ⟨t1, t2, t3, t4⟩ :=
      iht (fun x hm => ih x (List.mem_cons_of_mem _ hm)) (node.clone v1 next).2
    simp only [array_clone, array_owned_addrs, array_addrs, array_values, h4, t4,
      List.mem_append, array_placed, Bool.and_eq_true]
    refine ⟨Nat.le_trans h1 t1, ?_, ?_, trivial⟩
    · rintro a (ha | ha)
      · exact ⟨(h2 a ha).1, Nat.lt_of_lt_of_le (h2 a ha).2 t1⟩
      · exact ⟨Nat.le_trans h1 (t2 a ha).1, (t2 a ha).2⟩
    · rintro bound ⟨hp1, hp2⟩ a (ha | ha)
      · exact h3 bound hp1 a ha
      · rcases t3 bound hp2 a ha with h | h
        · exact Or.inl (Nat.le_trans h1 h)
        · exact Or.inr h

/-- Every clone satisfies `clone_spec`. -/
theorem clone_spec_holds : ∀ v : node, clone_spec v := by
  refine node_induction clone_spec ?_ ?_ ?_ ?_ ?_ ?_ ?_
  · intro a next
    simp [node.clone, node.owned_addrs, node.addrs, node.addr, node.value, node.placed]
    exact fun h => Or.inr h
  · intro a b next
    simp [node.clone, node.owned_addrs, node.addrs, node.addr, node.value]
  · intro a i next
    simp [node.clone, node.owned_addrs, node.addrs, node.addr, node.value]
  · intro a d next
    simp [node.clone, node.owned_addrs, node.addrs, node.addr, node.value]
  · intro a s next
    simp [node.clone, node.owned_addrs, node.addrs, node.addr, node.value]
  · intro a m ih next
    obtain ⟨t1, t2, t3, t4⟩ := object_clone_spec m ih (next + 1)
    simp only [node.clone, node.owned_addrs, node.addrs, node.value, t4, List.mem_cons,
      node.placed, Bool.and_eq_true]
    refine ⟨by omega, ?_, ?_, trivial⟩
    · rintro b (hb | hb)
      · omega
      · have := t2 b hb
        omega
    · rintro bound ⟨_, hp⟩ b (hb | hb)
      · exact Or.inl (by omega)
      · rcases t3 bound hp b hb with h | h
        · exact Or.inl (by omega)
        · exact Or.inr h
  · intro a l ih next
    obtain ⟨t1, t2, t3, t4⟩ := array_clone_spec l ih (next + 1)
    simp only [node.clone, node.owned_addrs, node.addrs, node.value, t4, List.mem_cons,
      node.placed, Bool.and_eq_true]
    refine ⟨by omega, ?_, ?_, trivial⟩
    · rintro b (hb | hb)
      · omega
      · have := t2 b hb
        omega
    · rintro bound ⟨_, hp⟩ b (hb | hb)
      · exact Or.inl (by omega)
      · rcases t3 bound hp b hb with h | h
        · exact Or.inl (by omega)
        · exact Or.inr h

/-- The addresses of a placed tree: the node objects that are no `jnull` lie above
`NULL_ADDR` and below the bound; every other node object is at `NULL_ADDR`. -/
theorem placed_bounds : ∀ (v : node) (bound : Nat), node.placed bound v = true →
    (∀ a ∈ node.owned_addrs v, NULL_ADDR < a ∧ a < bound) ∧
    (∀ a ∈ node.addrs v, a = NULL_ADDR ∨ (NULL_ADDR < a ∧ a < bound)) := by
  refine node_induction
    (fun v => ∀ bound : Nat, node.placed bound v = true →
      (∀ a ∈ node.owned_addrs v, NULL_ADDR < a ∧ a < bound) ∧
      (∀ a ∈ node.addrs v, a = NULL_ADDR ∨ (NULL_ADDR < a ∧ a < bound))) ?_ ?_ ?_ ?_ ?_ ?_ ?_
  · intro a bound h
    simp [node.placed] at h
    simp [node.owned_addrs, node.addrs, node.addr, h]
  · intro a b bound h
    simp [node.placed] at h
    simp [node.owned_addrs, node.addrs, node.addr, h]
  · intro a i bound h
    simp [node.placed] at h
    simp [node.owned_addrs, node.addrs, node.addr, h]
  · intro a d bound h
    simp [node.placed] at h
    simp [node.owned_addrs, node.addrs, node.addr, h]
  · intro a s bound h
    simp [node.placed] at h
    simp [node.owned_addrs, node.addrs, node.addr, h]
  · intro a m ih bound h
    simp only [node.placed, Bool.and_eq_true, decide_eq_true_eq] at h
    obtain ⟨ha, hm⟩ := h
    have aux : ∀ t : List (String × node), (∀ k v, (k, v) ∈ t → (k, v) ∈ m) →
        object_placed bound t = true →
        (∀ b ∈ object_owned_addrs t, NULL_ADDR < b ∧ b < bound) ∧
        (∀ b ∈ object_addrs t, b = NULL_ADDR ∨ (NULL_ADDR < b ∧ b < bound)) := by
      intro t
      induction t with
      | nil => intro _ _; simp [object_owned_addrs, object_addrs]
      | cons e t iht =>
        obtain ⟨k1, v1⟩ := e
        intro hsub hp
        simp only [object_placed, Bool.and_eq_true] at hp
        obtain ⟨h1, h2⟩ := ih k1 v1 (hsub k1 v1 (List.mem_cons_self _ _)) bound hp.1
        obtain ⟨t1, t2⟩ := iht (fun k v hm => hsub k v (List.mem_cons_of_mem _ hm)) hp.2
        simp only [object_owned_addrs, object_addrs, List.mem_append]
        exact ⟨fun b hb => hb.elim (h1 b) (t1 b), fun b hb => hb.elim (h2 b) (t2 b)⟩
    obtain ⟨t1, t2⟩ := aux m (fun _ _ h => h) hm
    simp only [node.owned_addrs, node.addrs, List.mem_cons]
    refine ⟨?_, ?_⟩
    · rintro b (hb | hb)
      · rw [hb]; exact ha
      · exact t1 b hb
    · rintro b (hb | hb)
      · rw [hb]; exact Or.inr ha
      · exact t2 b hb
  · intro a l ih bound h
    simp only [node.placed, Bool.and_eq_true, decide_eq_true_eq] at h
    obtain ⟨ha, hm⟩ := h
    have aux : ∀ t : List node, (∀ x ∈ t, x ∈ l) → array_placed bound t = true →
        (∀ b ∈ array_owned_addrs t, NULL_ADDR < b ∧ b < bound) ∧
        (∀ b ∈ array_addrs t, b = NULL_ADDR ∨ (NULL_ADDR < b ∧ b < bound)) := by
      intro t
      induction t with
      | nil => intro _ _; simp [array_owned_addrs, array_addrs]
      | cons v1 t iht =>
        intro hsub hp
        simp only [array_placed, Bool.and_eq_true] at hp
        obtain ⟨h1, h2⟩ := ih v1 (hsub v1 (List.mem_cons_self _ _)) bound hp.1
        obtain ⟨t1, t2⟩ := iht (fun x hm => hsub x (List.mem_cons_of_mem _ hm)) hp.2
        simp only [array_owned_addrs, array_addrs, List.mem_append]
        exact ⟨fun b hb => hb.elim (h1 b) (t1 b), fun b hb => hb.elim (h2 b) (t2 b)⟩
    obtain ⟨t1, t2⟩ := aux l (fun _ h => h) hm
    simp only [node.owned_addrs, node.addrs, List.mem_cons]
    refine ⟨?_, ?_⟩
    · rintro b (hb | hb)
      · rw [hb]; exact ha
      · exact t1 b hb
    · rintro b (hb | hb)
      · rw [hb]; exact Or.inr ha
      · exact t2 b hb

/-- C11 at `json(0)` and `json(false)`, whose discriminants differ. -/
theorem different_discriminants_unequal_witness :
    json.value_type (json.json_int 0) ≠ json.value_type (json.json_bool false) ∧
    json.eq (json.json_int 0) (json.json_bool false) = false ∧
    json.ne (json.json_int 0) (json.json_bool false) = true :=
  ⟨by decide,
   different_discriminants_unequal.1 (json.json_int 0) (json.json_bool false) (by decide)⟩

/-- The map after `_v[key]`, for a first entry under another key. -/
theorem object_subscript_cons_ne (k1 key : String) (v1 : json) (t : json.object)
    (h : ¬ k1 = key) :
    object_subscript ((k1, v1) :: t) key = (k1, v1) :: object_subscript t key := by
  unfold object_subscript
  simp only [object_find, h, if_false]
  cases object_find t key <;> rfl

/-- The trees of an array payload grown by handles that point to the static
`jnull`. -/
theorem array_values_append_null (l : List node) (n : Nat) :
    array_values (l ++ List.replicate n node.null_instance)
      = array_values l ++ List.replicate n jvalue.jnull := by
  have hrep : ∀ k : Nat,
      array_values (List.replicate k node.null_instance) = List.replicate k jvalue.jnull := by
    intro k
    induction k with
    | zero => rfl
    | succ k ih =>
      show node.value node.null_instance :: array_values (List.replicate k node.null_instance)
        = jvalue.jnull :: List.replicate k jvalue.jnull
      rw [ih]
      rfl
  induction l with
  | nil => exact hrep n
  | cons v t ih =>
    show node.value v :: array_values (t ++ List.replicate n node.null_instance)
      = node.value v :: (array_values t ++ List.replicate n jvalue.jnull)
    rw [ih]

/-- An array payload has as many trees as handles. -/
theorem array_values_length (l : List node) : (array_values l).length = l.length := by
  induction l with
  | nil => rfl
  | cons v t ih =>
    show (node.value v :: array_values t).length = (v :: t).length
    simp [ih]

/-! ## Writing through a key or an index, at the pointer level -/

theorem written_map_done {α β : Type} (g : α → β) (w : written α) (r : β) (n : Nat)
    (m : memory) (h : w.map g = .done r n m) : ∃ v, w = .done v n m ∧ r = g v := by
  cases w with
  | done v n1 m1 =>
    simp only [written.map, written.done.injEq] at h
    obtain ⟨h1, h2, h3⟩ := h
    exact ⟨v, by rw [h2, h3], h1.symm⟩
  | stopped o => simp [written.map] at h
  | deleted_read a => simp [written.map] at h
  | no_element m1 => simp [written.map] at h
  | no_memory => simp [written.map] at h

theorem written_map_map {α β γ : Type} (g : α → β) (h : β → γ) (w : written α) :
    (w.map g).map h = w.map (fun v => h (g v)) := by
  cases w <;> rfl

theorem dispose_node_fuel (fuel : Nat) (n : Option node) (m m2 : memory)
    (h : json.dispose_node fuel n m = .returned m2) : fuel ≠ 0 := by
  intro h0
  subst h0
  simp [json.dispose_node] at h

/-- The release of a Null or Boolean node leaves the reclaimer as it is. -/
theorem dispose_node_static (fuel : Nat) (n : node) (m : memory)
    (h : reclaimable (node.type n) = false) (hf : fuel ≠ 0) :
    json.dispose_node fuel (some n) m = .returned m := by
  obtain ⟨f, rfl⟩ := Nat.exists_eq_succ_of_ne_zero hf
  simp [json.dispose_node, h]

/-- The release of a Number, String, Object or Array node into a buffer that holds
fewer than 16 nodes appends the node and deletes nothing. -/
theorem dispose_node_below_threshold (fuel : Nat) (n : node) (m : memory)
    (h : m.jvalues.length < 16) :
    json.dispose_node (fuel + 2) (some n) m = .returned (released n m) := by
  cases hr : reclaimable (node.type n) with
  | false => simp [json.dispose_node, released, hr]
  | true =>
    simp only [json.dispose_node, released, hr, if_true]
    exact add_value_below_threshold fuel n m h

/-- The two assignments through a slot that holds the static `jnull`. -/
theorem assign_null_slot (fuel : Nat) (x : node) (next : Nat) (m : memory) (hf : fuel ≠ 0)
    (h_null : NULL_ADDR ∉ m.freed) :
    move_assign fuel x node.null_instance next m = .done x next m ∧
    (node.first_deleted m x = none →
      copy_assign fuel x node.null_instance next m
        = .done (node.clone x next).1 (node.clone x next).2 m) := by
  have hd : json.dispose_node fuel (some node.null_instance) m = .returned m :=
    dispose_node_static fuel _ m rfl hf
  have ha : node.addr node.null_instance = NULL_ADDR := rfl
  refine ⟨?_, ?_⟩
  · simp only [move_assign, ha, if_neg h_null, hd]
  · intro hx
    simp only [copy_assign, ha, if_neg h_null, hd, hx]

/-- Pointer level, the non-object branch of `v[k] = x`: when the node of `v` is not
deleted and its release returns, without deleting the static `jnull` or, for the copy
assignment, a node of `x`, then `v` points to a new object whose one entry maps `k`
to a clone of `x` (copy assignment) or to the node of `x` (move assignment), and the
reclaimer is in the state the release left. -/
theorem key_write_non_object_done (fuel : Nat) (self x : node) (k : String) (next : Nat)
    (m m2 : memory) (h_type : node.type self ≠ .OBJECT)
    (h_live : node.addr self ∉ m.freed)
    (h_release : json.dispose_node fuel (some self) m = .returned m2)
    (h_null : NULL_ADDR ∉ m2.freed) :
    json.operator_subscript_key fuel self k (move_assign fuel x) next m
      = .done (.jobject next [(k, x)]) (next + 1) m2 ∧
    (node.first_deleted m2 x = none →
      json.operator_subscript_key fuel self k (copy_assign fuel x) next m
        = .done (.jobject next [(k, (node.clone x (next + 1)).1)])
            (node.clone x (next + 1)).2 m2) ∧
    node.value (.jobject next [(k, (node.clone x (next + 1)).1)])
      = .jobject [(k, node.value x)] := by
  have hf := dispose_node_fuel fuel _ m m2 h_release
  have hn := assign_null_slot fuel x (next + 1) m2 hf h_null
  refine ⟨?_, ?_, ?_⟩
  · cases self <;>
      first
      | exact absurd rfl h_type
      | simp only [json.operator_subscript_key, if_neg h_live, h_release,
          object_write_through, hn.1, written.map]
  · intro hx
    cases self <;>
      first
      | exact absurd rfl h_type
      | simp only [json.operator_subscript_key, if_neg h_live, h_release,
          object_write_through, hn.2 hx, written.map]
  · simp only [node.value, object_values]
    rw [(clone_spec_holds x (next + 1)).2.2.2]

/-- C3: the buffer of the reclaimer holds sixteen released numbers, at the addresses
10 to 25, and `v` holds the array `[7]`, at address 3 with its number at 4.  In
`v["k"] = 1` the release of the array by `*this = object{}` starts a flush; deleting
the array releases its number, `start_delete` is entered again and the number at
address 10 is passed to `delete` a second time: the statement does not complete, and
`v` is not left as the object with the one entry `k`. -/
theorem key_write_release_deletes_twice :
    (json.operator_subscript_key 60 (.jarray 3 [.jint 4 7]) "k" (move_assign 60 (.jint 40 1)) 41
      ⟨sixteen_numbers, []⟩).deleted_twice = some 10 ∧
    (json.operator_subscript_key 60 (.jarray 3 [.jint 4 7]) "k" (move_assign 60 (.jint 40 1)) 41
      ⟨sixteen_numbers, []⟩).freed
      = some [10, 11, 12, 13, 14, 15, 16, 17, 18, 19, 20, 21, 22, 23, 24, 25, 3] ∧
    (json.operator_subscript_key 60 (.jarray 3 [.jint 4 7]) "k" (move_assign 60 (.jint 40 1)) 41
      ⟨sixteen_numbers, []⟩).value.isNone = true ∧
    (json.operator_subscript_key 60 (.jint 3 42) "k" (move_assign 60 (.jint 40 1)) 41
      ⟨[], []⟩).value.map node.value
      = some (.jobject [("k", .jint 1)]) := by
  refine ⟨by decide!, by decide!, by decide!, rfl⟩

/-- The map's `operator[]` on an absent key appends an entry for the static `jnull`,
and the action goes through that entry. -/
theorem object_write_through_absent (f : node → Nat → memory → written node) (k : String) :
    ∀ (_v : List (String × node)) (next : Nat) (m : memory), (∀ e ∈ _v, e.1 ≠ k) →
    object_write_through f k _v next m
      = (f node.null_instance next m).map (fun n => _v ++ [(k, n)]) := by
  intro _v
  induction _v with
  | nil =>
    intro next m _
    rfl
  | cons e t ih =>
    obtain ⟨k1, v1⟩ := e
    intro next m h
    have hk : ¬ k1 = k := h (k1, v1) (List.mem_cons_self _ _)
    rw [object_write_through, if_neg hk,
      ih next m (fun e he => h e (List.mem_cons_of_mem _ he)), written_map_map]
    rfl

/-- The map's `operator[]` on a present key adds no entry, and the action goes through
the entry of the key: every other entry stays as it is. -/
theorem object_write_through_present (f : node → Nat → memory → written node) (k : String)
    (old : node) (post : List (String × node)) :
    ∀ (pre : List (String × node)) (next : Nat) (m : memory), (∀ e ∈ pre, e.1 ≠ k) →
    object_write_through f k (pre ++ (k, old) :: post) next m
      = (f old next m).map (fun n => pre ++ (k, n) :: post) := by
  intro pre
  induction pre with
  | nil =>
    intro next m _
    simp only [List.nil_append, object_write_through, if_true]
  | cons e t ih =>
    obtain ⟨k1, v1⟩ := e
    intro next m h
    have hk : ¬ k1 = k := h (k1, v1) (List.mem_cons_self _ _)
    rw [List.cons_append, object_write_through, if_neg hk,
      ih next m (fun e he => h e (List.mem_cons_of_mem _ he)), written_map_map]
    rfl

/-- Pointer level, the object branch of `v[k] = x` for an absent key: the object gets
one more entry, `k` mapped to a clone of `x` (copy assignment) or to the node of `x`
(move assignment); nothing is released. -/
theorem key_insert_done (fuel a : Nat) (_v : List (String × node)) (x : node) (k : String)
    (next : Nat) (m : memory) (h_absent : ∀ e ∈ _v, e.1 ≠ k) (hf : fuel ≠ 0)
    (h_live : a ∉ m.freed) (h_null : NULL_ADDR ∉ m.freed) :
    json.operator_subscript_key fuel (.jobject a _v) k (move_assign fuel x) next m
      = .done (.jobject a (_v ++ [(k, x)])) next m ∧
    (node.first_deleted m x = none →
      json.operator_subscript_key fuel (.jobject a _v) k (copy_assign fuel x) next m
        = .done (.jobject a (_v ++ [(k, (node.clone x next).1)])) (node.clone x next).2 m) := by
  have hn := assign_null_slot fuel x next m hf h_null
  have ha : node.addr (.jobject a _v) = a := rfl
  refine ⟨?_, ?_⟩
  · simp only [json.operator_subscript_key, ha, if_neg h_live,
      object_write_through_absent _ k _v next m h_absent, hn.1, written.map]
  · intro hx
    simp only [json.operator_subscript_key, ha, if_neg h_live,
      object_write_through_absent _ k _v next m h_absent, hn.2 hx, written.map]

/-- Pointer level, the object branch of `v[k] = x` for a present key: when the node
the entry holds is not deleted and its release returns, without deleting, for the
copy assignment, a node of `x`, then the entry of `k` holds a clone of `x` (copy
assignment) or the node of `x` (move assignment), and every other entry is as
before. -/
theorem key_overwrite_done (fuel a : Nat) (pre post : List (String × node)) (old x : node)
    (k : String) (next : Nat) (m m2 : memory) (h_first : ∀ e ∈ pre, e.1 ≠ k)
    (h_live : a ∉ m.freed) (h_old : node.addr old ∉ m.freed)
    (h_release : json.dispose_node fuel (some old) m = .returned m2) :
    json.operator_subscript_key fuel (.jobject a (pre ++ (k, old) :: post)) k
        (move_assign fuel x) next m
      = .done (.jobject a (pre ++ (k, x) :: post)) next m2 ∧
    (node.first_deleted m2 x = none →
      json.operator_subscript_key fuel (.jobject a (pre ++ (k, old) :: post)) k
          (copy_assign fuel x) next m
        = .done (.jobject a (pre ++ (k, (node.clone x next).1) :: post))
            (node.clone x next).2 m2) := by
  have ha : node.addr (.jobject a (pre ++ (k, old) :: post)) = a := rfl
  refine ⟨?_, ?_⟩
  · simp only [json.operator_subscript_key, ha, if_neg h_live,
      object_write_through_present _ k old post pre next m h_first, move_assign,
      if_neg h_old, h_release, written.map]
  · intro hx
    simp only [json.operator_subscript_key, ha, if_neg h_live,
      object_write_through_present _ k old post pre next m h_first, copy_assign,
      if_neg h_old, h_release, hx, written.map]

/-- C5: the buffer of the reclaimer holds sixteen released numbers, at the addresses
10 to 25, and `v` holds, at address 3, the object with the one entry `k`, mapped to
the array `[7]` at address 4 with its number at 5.  In `v["k"] = 1`, by move and by
copy assignment, the release of the array by `operator=` starts a flush; deleting the
array releases its number, `start_delete` is entered again and the number at address
10 is passed to `delete` a second time: the statement does not complete, and the
object is not left with `k` mapped to `1`. -/
theorem key_overwrite_release_deletes_twice :
    (json.operator_subscript_key 60 (.jobject 3 [("k", .jarray 4 [.jint 5 7])]) "k"
      (move_assign 60 (.jint 40 1)) 41 ⟨sixteen_numbers, []⟩).deleted_twice = some 10 ∧
    (json.operator_subscript_key 60 (.jobject 3 [("k", .jarray 4 [.jint 5 7])]) "k"
      (copy_assign 60 (.jint 40 1)) 41 ⟨sixteen_numbers, []⟩).deleted_twice = some 10 ∧
    (json.operator_subscript_key 60 (.jobject 3 [("k", .jarray 4 [.jint 5 7])]) "k"
      (move_assign 60 (.jint 40 1)) 41 ⟨sixteen_numbers, []⟩).freed
      = some [10, 11, 12, 13, 14, 15, 16, 17, 18, 19, 20, 21, 22, 23, 24, 25, 4] ∧
    (json.operator_subscript_key 60 (.jobject 3 [("k", .jarray 4 [.jint 5 7])]) "k"
      (move_assign 60 (.jint 40 1)) 41 ⟨sixteen_numbers, []⟩).value.isNone = true ∧
    (json.operator_subscript_key 60 (.jobject 3 [("k", .jarray 4 [.jint 5 7])]) "k"
      (move_assign 60 (.jint 40 1)) 41 ⟨[], []⟩).value.map node.value
      = some (.jobject [("k", .jint 1)]) := by
  refine ⟨by decide!, by decide!, by decide!, by decide!, rfl⟩

/-- The action through `arr[i]` for an index within the array goes through the element
at `i`, and the other elements stay as they are. -/
theorem array_write_through_at (f : node → Nat → memory → written node) (s : node)
    (t : List node) : ∀ (l : List node) (next : Nat) (m : memory),
    array_write_through f l.length (l ++ s :: t) next m
      = (f s next m).map (fun n => l ++ n :: t) := by
  intro l
  induction l with
  | nil =>
    intro next m
    rfl
  | cons e l ih =>
    intro next m
    show array_write_through f (l.length + 1) (e :: (l ++ s :: t)) next m = _
    rw [array_write_through, ih next m, written_map_map]
    rfl

/-- There is no element `arr[i]` for an index from the size of the array on. -/
theorem array_write_through_none (f : node → Nat → memory → written node) :
    ∀ (arr : List node) (i next : Nat) (m : memory), arr.length ≤ i →
    array_write_through f i arr next m = .no_element m := by
  intro arr
  induction arr with
  | nil =>
    intro i next m _
    cases i <;> rfl
  | cons e t ih =>
    intro i next m h
    cases i with
    | zero => simp at h
    | succ j =>
      rw [array_write_through, ih j next m (by simpa using h)]
      rfl

/-- An array that can be allocated has a size below `2 ^ 64`. -/
theorem can_allocate_small (cap n : Nat) (h : can_allocate cap n = true) :
    n % SIZE_MOD = n ∧ n ≤ cap := by
  simp only [can_allocate, ARRAY_LIMIT, decide_eq_true_eq] at h
  refine ⟨Nat.mod_eq_of_lt ?_, h.1⟩
  have : (2 : Nat) ^ 61 < SIZE_MOD := by decide
  omega

/-- C6 fails at the largest index and at every index whose array does not fit in
memory: from a Null handle, `v[i] = "x"` with `i = 2^64 - 1` makes `v` an empty array,
because `i + 1` wraps to `0`, and there is no element `i` to write to; with
`i = 2^62` no array of `i + 1` handles can be allocated, whatever the memory. -/
theorem index_write_largest_index :
    (json.operator_subscript_index 5 (2 ^ 64) 0 node.null_instance (2 ^ 64 - 1)
      (copy_assign 5 (.jstring 5 "x")) 6 ⟨[], []⟩).is_no_element = true ∧
    (json.operator_subscript_index 5 (2 ^ 64) 0 node.null_instance (2 ^ 64 - 1)
      (copy_assign 5 (.jstring 5 "x")) 6 ⟨[], []⟩).value.isNone = true ∧
    (∀ cap : Nat, (json.operator_subscript_index 5 cap 0 node.null_instance (2 ^ 62)
      (copy_assign 5 (.jstring 5 "x")) 6 ⟨[], []⟩).is_no_memory = true) := by
  refine ⟨by decide!, by decide!, ?_⟩
  intro cap
  have h : can_allocate cap ((2 ^ 62 + 1) % SIZE_MOD) = false := by
    simp [can_allocate, ARRAY_LIMIT, SIZE_MOD]
  have ha : node.addr node.null_instance ∉ (⟨[], []⟩ : memory).freed := by simp
  simp only [json.operator_subscript_index, if_neg ha, node.null_instance, h, if_true]
  rfl

/-- C6 (as amended): for a handle `v` that is no array and whose node is not deleted,
an index `i` such that an array of `i + 1` handles can be allocated (`i + 1` is
within the memory of the run and below `2 ^ 61`), and a value `x`: when the release
of the old node of `v` by `*this = array{i + 1}` returns and deletes neither the
static `jnull` nor a node of `x`, then after `v[i] = x`, by move or by copy
assignment, `v` points to a new array of length `i + 1` whose elements below `i` are
Null and whose element `i` is `x`; the old node of `v` is released. -/
theorem index_write_non_array (fuel cap spare : Nat) (self x : node) (i next : Nat)
    (m m2 : memory) (h_type : node.type self ≠ .ARRAY)
    (h_alloc : can_allocate cap (i + 1) = true)
    (h_live : node.addr self ∉ m.freed)
    (h_release : json.dispose_node fuel (some self) m = .returned m2)
    (h_null : NULL_ADDR ∉ m2.freed)
    (h_x : node.first_deleted m2 x = none) :
    json.operator_subscript_index fuel cap spare self i (move_assign fuel x) next m
      = .done (.jarray next (List.replicate i node.null_instance ++ [x])) (next + 1) m2 ∧
    json.operator_subscript_index fuel cap spare self i (copy_assign fuel x) next m
      = .done (.jarray next
          (List.replicate i node.null_instance ++ [(node.clone x (next + 1)).1]))
          (node.clone x (next + 1)).2 m2 ∧
    node.value (.jarray next (List.replicate i node.null_instance ++ [x]))
      = .jarray (List.replicate i .jnull ++ [node.value x]) ∧
    node.value (.jarray next
        (List.replicate i node.null_instance ++ [(node.clone x (next + 1)).1]))
      = .jarray (List.replicate i .jnull ++ [node.value x]) ∧
    (List.replicate i jvalue.jnull ++ [node.value x]).length = i + 1 ∧
    (∀ j, j < i → (List.replicate i jvalue.jnull ++ [node.value x]).get? j
      = some jvalue.jnull) ∧
    (List.replicate i jvalue.jnull ++ [node.value x]).get? i = some (node.value x) := by
  have hf := dispose_node_fuel fuel _ m m2 h_release
  have hn := assign_null_slot fuel x (next + 1) m2 hf h_null
  have hsz := (can_allocate_small cap (i + 1) h_alloc).1
  have hal : ¬ can_allocate cap (i + 1) = false := by
    rw [h_alloc]
    simp
  have hrep : List.replicate (i + 1) node.null_instance
      = List.replicate i node.null_instance ++ node.null_instance :: [] :=
    List.replicate_succ' _ _
  have hlen : (List.replicate i node.null_instance).length = i :=
    List.length_replicate _ _
  have hat : ∀ f : node → Nat → memory → written node,
      array_write_through f i (List.replicate (i + 1) node.null_instance) (next + 1) m2
        = (f node.null_instance (next + 1) m2).map
            (fun n => List.replicate i node.null_instance ++ n :: []) := by
    intro f
    have := array_write_through_at f node.null_instance []
      (List.replicate i node.null_instance) (next + 1) m2
    rw [hlen] at this
    rw [hrep, this]
  have hval : ∀ y : node,
      node.value (.jarray next (List.replicate i node.null_instance ++ [y]))
        = .jarray (List.replicate i .jnull ++ [node.value y]) := by
    intro y
    have h1 : ∀ l : List node, array_values (l ++ [y]) = array_values l ++ [node.value y] := by
      intro l
      induction l with
      | nil => rfl
      | cons e t ih =>
        show node.value e :: array_values (t ++ [y]) = node.value e :: (array_values t ++ _)
        rw [ih]
    have h2 := array_values_append_null [] i
    simp only [List.nil_append] at h2
    simp only [node.value, h1, h2]
    rfl
  refine ⟨?_, ?_, hval x, ?_, by simp, ?_, ?_⟩
  · cases self <;>
      first
      | exact absurd rfl h_type
      | simp only [json.operator_subscript_index, if_neg h_live, if_neg hal, h_release,
          hsz, hat, hn.1, written.map]
  · cases self <;>
      first
      | exact absurd rfl h_type
      | simp only [json.operator_subscript_index, if_neg h_live, if_neg hal, h_release,
          hsz, hat, hn.2 h_x, written.map]
  · rw [hval, (clone_spec_holds x (next + 1)).2.2.2]
  · intro j hj
    rw [List.get?_eq_getElem?, List.getElem?_append_left (by simpa using hj)]
    simp [hj]
  · rw [List.get?_eq_getElem?, List.getElem?_append_right (by simp)]
    simp

/-- C6 (as amended) from a Null handle: `v[3] = "x"` gives the array
`[null, null, null, "x"]`. -/
theorem index_write_non_array_witness :
    node.type node.null_instance ≠ .ARRAY ∧ can_allocate 100 (3 + 1) = true ∧
    json.dispose_node 5 (some node.null_instance) ⟨[], []⟩ = .returned ⟨[], []⟩ ∧
    (json.operator_subscript_index 5 100 0 node.null_instance 3
      (copy_assign 5 (.jstring 5 "x")) 6 ⟨[], []⟩).value.map node.value
      = some (.jarray [.jnull, .jnull, .jnull, .jstring "x"]) :=
  ⟨by decide, by decide, rfl, by
    rw [(index_write_non_array 5 100 0 node.null_instance (.jstring 5 "x") 3 6 ⟨[], []⟩
      ⟨[], []⟩ (by decide) (by decide) (by simp) rfl (by simp) rfl).2.1]
    rfl⟩

/-- Pointer level, `v[i] = x` on an array with an element `i`: when the node the
element holds is not deleted and its release returns, then the element holds the node
of `x` (move assignment) or, when no node of `x` is deleted, a clone of `x` (copy
assignment); every other element is as before and the length stays. -/
theorem index_write_in_range (fuel cap spare a : Nat) (pre post : List node) (old x : node)
    (next : Nat) (m m2 : memory) (h_live : a ∉ m.freed) (h_old : node.addr old ∉ m.freed)
    (h_release : json.dispose_node fuel (some old) m = .returned m2) :
    json.operator_subscript_index fuel cap spare (.jarray a (pre ++ old :: post)) pre.length
        (move_assign fuel x) next m
      = .done (.jarray a (pre ++ x :: post)) next m2 ∧
    (node.first_deleted m2 x = none →
      json.operator_subscript_index fuel cap spare (.jarray a (pre ++ old :: post)) pre.length
          (copy_assign fuel x) next m
        = .done (.jarray a (pre ++ (node.clone x next).1 :: post)) (node.clone x next).2 m2) ∧
    (pre ++ x :: post).length = (pre ++ old :: post).length := by
  have ha : node.addr (.jarray a (pre ++ old :: post)) = a := rfl
  have hlt : (pre ++ old :: post).length > pre.length := by simp
  refine ⟨?_, ?_, by simp⟩
  · simp only [json.operator_subscript_index, ha, if_neg h_live, if_pos hlt,
      array_write_through_at, move_assign, if_neg h_old, h_release, written.map]
  · intro hx
    simp only [json.operator_subscript_index, ha, if_neg h_live, if_pos hlt,
      array_write_through_at, copy_assign, if_neg h_old, h_release, hx, written.map]

/-- Pointer level, `v[i] = x` on an array without an element `i`, when the storage of
the array has room for the handles that `insert` appends: the elements of the array
stay where they are, Null handles follow up to the index `i`, and the element `i`
holds the node of `x` (move assignment) or a clone of `x` (copy assignment); nothing
is released. -/
theorem index_write_grow_in_storage (fuel cap spare a : Nat) (arr : List node) (x : node)
    (i next : Nat) (m : memory) (h_i : arr.length ≤ i)
    (h_alloc : can_allocate cap (i + 1) = true) (h_room : i - arr.length + 1 ≤ spare)
    (hf : fuel ≠ 0) (h_live : a ∉ m.freed) (h_null : NULL_ADDR ∉ m.freed) :
    json.operator_subscript_index fuel cap spare (.jarray a arr) i (move_assign fuel x) next m
      = .done (.jarray a
          (arr ++ List.replicate (i - arr.length) node.null_instance ++ [x])) next m ∧
    (node.first_deleted m x = none →
      json.operator_subscript_index fuel cap spare (.jarray a arr) i (copy_assign fuel x)
          next m
        = .done (.jarray a (arr ++ List.replicate (i - arr.length) node.null_instance
            ++ [(node.clone x next).1])) (node.clone x next).2 m) ∧
    (arr ++ List.replicate (i - arr.length) node.null_instance ++ [x]).length = i + 1 := by
  have hn := assign_null_slot fuel x next m hf h_null
  have ha : node.addr (.jarray a arr) = a := rfl
  have hnot : ¬ arr.length > i := by omega
  have hsz := (can_allocate_small cap (i + 1) h_alloc).1
  have hlt : i + 1 < SIZE_MOD := by
    have := Nat.mod_lt (i + 1) (by decide : SIZE_MOD > 0)
    omega
  have hcount : (i - arr.length + 1) % SIZE_MOD = i - arr.length + 1 :=
    Nat.mod_eq_of_lt (by omega)
  have hsum : arr.length + (i - arr.length + 1) = i + 1 := by omega
  have hal : ¬ can_allocate cap (i + 1) = false := by
    rw [h_alloc]
    simp
  have hrep : arr ++ List.replicate (i - arr.length + 1) node.null_instance
      = (arr ++ List.replicate (i - arr.length) node.null_instance)
          ++ node.null_instance :: [] := by
    rw [List.replicate_succ' _ _, List.append_assoc]
  have hlen : (arr ++ List.replicate (i - arr.length) node.null_instance).length = i := by
    simp
    omega
  have hat : ∀ f : node → Nat → memory → written node,
      array_write_through f i
          (arr ++ List.replicate (i - arr.length + 1) node.null_instance) next m
        = (f node.null_instance next m).map
            (fun n => (arr ++ List.replicate (i - arr.length) node.null_instance)
              ++ n :: []) := by
    intro f
    have := array_write_through_at f node.null_instance []
      (arr ++ List.replicate (i - arr.length) node.null_instance) next m
    rw [hlen] at this
    rw [hrep, this]
  refine ⟨?_, ?_, ?_⟩
  · simp only [json.operator_subscript_index, ha, if_neg h_live, if_neg hnot, hcount, hsum,
      if_neg hal, if_pos h_room, hat, hn.1, written.map]
  · intro hx
    simp only [json.operator_subscript_index, ha, if_neg h_live, if_neg hnot, hcount, hsum,
      if_neg hal, if_pos h_room, hat, hn.2 hx, written.map]
  · simp
    omega

/-- C7: `v` holds, at address 3, an array of the seventeen numbers at the addresses 10
to 26, its storage is full and the reclaimer is empty.  In `v[17] = 1` the handles of
the array are moved into new storage by `json::json(json&&)`, which leaves each old
handle its pointer, and the destructors of the old handles release the seventeen
nodes that the array still points to; the last release starts a flush, which deletes
all of them inside the statement.  The first seventeen elements of `v` are then
pointers to deleted nodes, and the next `v[0] = 2` reads one.  With fewer elements
the nodes are left in the buffer of the reclaimer while the array still points to
them: for the array `[7]`, `v[1] = 1` leaves the number at address 4 buffered. -/
theorem array_growth_deletes_live_elements :
    (json.operator_subscript_index 60 100 0 (.jarray 3 seventeen_numbers) 17
      (move_assign 60 (.jint 40 1)) 41 ⟨[], []⟩).value.map node.addrs
      = some [3, 10, 11, 12, 13, 14, 15, 16, 17, 18, 19, 20, 21, 22, 23, 24, 25, 26, 40] ∧
    (json.operator_subscript_index 60 100 0 (.jarray 3 seventeen_numbers) 17
      (move_assign 60 (.jint 40 1)) 41 ⟨[], []⟩).freed
      = some [10, 11, 12, 13, 14, 15, 16, 17, 18, 19, 20, 21, 22, 23, 24, 25, 26] ∧
    (match json.operator_subscript_index 60 100 0 (.jarray 3 seventeen_numbers) 17
        (move_assign 60 (.jint 40 1)) 41 ⟨[], []⟩ with
      | .done v next m =>
        (json.operator_subscript_index 60 100 0 v 0 (move_assign 60 (.jint next 2))
          (next + 1) m).read_deleted
      | _ => none) = some 10 ∧
    (json.operator_subscript_index 60 100 0 (.jarray 3 [.jint 4 7]) 1
      (move_assign 60 (.jint 40 1)) 41 ⟨[], []⟩).value.map node.addrs = some [3, 4, 40] ∧
    (json.operator_subscript_index 60 100 0 (.jarray 3 [.jint 4 7]) 1
      (move_assign 60 (.jint 40 1)) 41 ⟨[], []⟩).jvalues.map (List.map node.addr)
      = some [4] := by
  refine ⟨by decide!, by decide!, by decide!, by decide!, by decide!⟩

/-- The copy assignment of a handle to itself changes nothing and releases nothing:
the address test skips the body. -/
theorem copy_self_assignment (fuel : Nat) (v : handle) (next : Nat) (m : memory) :
    handle.assign fuel true v v next m = some (v, next, .returned m) := rfl

/-- C14: `v` holds, at address 3, an array of the sixteen numbers at the addresses 10
to 25, with its storage full and the reclaimer empty.  `v[16] = 1` completes, deletes
nothing and leaves the sixteen nodes, which `v` still points to, in the buffer of the
reclaimer (the handles were relocated through `json::json(json&&)`).  The copy
`json c(v)` has new nodes, at the addresses 41 to 58.  The write `c[0] = 5` releases
the number of the copy at address 42, which starts a flush: it deletes the sixteen
nodes of `v` together with the released node of `c`.  After the write to the copy the
content of `v` is gone: the next `v[0] = 2` reads the deleted node at address 10. -/
theorem write_to_copy_deletes_original :
    grown_array.value.map node.addrs
      = some [3, 10, 11, 12, 13, 14, 15, 16, 17, 18, 19, 20, 21, 22, 23, 24, 25, 40] ∧
    grown_array.freed = some [] ∧
    grown_array.jvalues.map (List.map node.addr)
      = some [10, 11, 12, 13, 14, 15, 16, 17, 18, 19, 20, 21, 22, 23, 24, 25] ∧
    copy_of_grown_written.value.map node.addrs
      = some [41, 59, 43, 44, 45, 46, 47, 48, 49, 50, 51, 52, 53, 54, 55, 56, 57, 58] ∧
    copy_of_grown_written.freed
      = some [10, 11, 12, 13, 14, 15, 16, 17, 18, 19, 20, 21, 22, 23, 24, 25, 42] ∧
    (match grown_array, copy_of_grown_written with
      | .done v _ _, .done _ next m =>
        (json.operator_subscript_index 60 100 0 v 0 (move_assign 60 (.jint next 2))
          (next + 1) m).read_deleted
      | _, _ => none) = some 10 := by
  refine ⟨by decide!, by decide!, by decide!, by decide!, by decide!, by decide!⟩

/-- When the copy assignment through a slot completes, the slot holds the tree of
`x`: the value of `json.assign`. -/
theorem copy_assign_value (fuel : Nat) (x slot : node) (next : Nat) (m : memory) (v : node)
    (n : Nat) (m2 : memory) (h : copy_assign fuel x slot next m = .done v n m2) :
    node.value v = json.assign (node.value slot) (node.value x) := by
  rw [assign_eq]
  unfold copy_assign at h
  split at h
  · exact absurd h (by simp)
  · split at h
    · split at h
      · exact absurd h (by simp)
      · simp only [written.done.injEq] at h
        rw [← h.1]
        exact (clone_spec_holds x next).2.2.2
    · exact absurd h (by simp)

/-- When the move assignment through a slot completes, the slot holds the tree of
`x`: the value of `json.assign_move`. -/
theorem move_assign_value (fuel : Nat) (x slot : node) (next : Nat) (m : memory) (v : node)
    (n : Nat) (m2 : memory) (h : move_assign fuel x slot next m = .done v n m2) :
    node.value v = json.assign_move (node.value slot) (node.value x) := by
  unfold move_assign at h
  split at h
  · exact absurd h (by simp)
  · split at h
    · simp only [written.done.injEq] at h
      rw [← h.1]
      rfl
    · exact absurd h (by simp)

/-- When an action through `_v[key]` completes, the payload has the trees that
`object_write` gives at the value level. -/
theorem object_write_through_values (f : node → Nat → memory → written node)
    (g : json → json)
    (hfg : ∀ (slot : node) (next : Nat) (m : memory) (v : node) (n : Nat) (m2 : memory),
      f slot next m = .done v n m2 → node.value v = g (node.value slot))
    (key : String) : ∀ (_v : List (String × node)) (next : Nat) (m : memory)
      (r : List (String × node)) (n : Nat) (m2 : memory),
    object_write_through f key _v next m = .done r n m2 →
    object_values r = object_write g key (object_subscript (object_values _v) key) := by
  intro _v
  induction _v with
  | nil =>
    intro next m r n m2 h
    obtain ⟨v, hv, hr⟩ := written_map_done _ _ _ _ _ h
    have := hfg _ _ _ _ _ _ hv
    rw [hr]
    simp only [object_values, object_subscript, object_find, object_write, if_true, List.nil_append]
    rw [this]
    rfl
  | cons e t ih =>
    obtain ⟨k1, v1⟩ := e
    intro next m r n m2 h
    by_cases hk : k1 = key
    · rw [object_write_through, if_pos hk] at h
      obtain ⟨v, hv, hr⟩ := written_map_done _ _ _ _ _ h
      have := hfg _ _ _ _ _ _ hv
      rw [hr]
      simp [object_values, object_subscript, object_find, object_write, hk, this]
    · rw [object_write_through, if_neg hk] at h
      obtain ⟨r2, hr2, hr⟩ := written_map_done _ _ _ _ _ h
      rw [hr]
      simp only [object_values]
      rw [object_subscript_cons_ne k1 key _ _ hk, object_write, if_neg hk,
        ih next m r2 n m2 hr2]

/-- The value level follows the pointer level: when the statement `v[k] = x`
completes at the pointer level, by copy or by move assignment, the tree of `v` is
that of `json.assign_key` or `json.assign_move_key`. -/
theorem key_write_refines (fuel : Nat) (self x : node) (k : String) (next : Nat)
    (m : memory) (v : node) (n : Nat) (m2 : memory) :
    (json.operator_subscript_key fuel self k (copy_assign fuel x) next m = .done v n m2 →
      node.value v = json.assign_key (node.value self) k (node.value x)) ∧
    (json.operator_subscript_key fuel self k (move_assign fuel x) next m = .done v n m2 →
      node.value v = json.assign_move_key (node.value self) k (node.value x)) := by
  have main : ∀ (f : node → Nat → memory → written node) (g : json → json),
      (∀ (slot : node) (next : Nat) (m : memory) (v : node) (n : Nat) (m2 : memory),
        f slot next m = .done v n m2 → node.value v = g (node.value slot)) →
      json.operator_subscript_key fuel self k f next m = .done v n m2 →
      node.value v = json.write_key (node.value self) k g := by
    intro f g hfg h
    have hobj := object_write_through_values f g hfg k
    by_cases hl : node.addr self ∈ m.freed
    · simp [json.operator_subscript_key, hl] at h
    · cases self with
      | jobject a _v =>
        simp only [json.operator_subscript_key, if_neg hl] at h
        obtain ⟨r, hr, hv⟩ := written_map_done _ _ _ _ _ h
        rw [hv]
        simp only [node.value, json.write_key, json.subscript_key, hobj _ _ _ _ _ _ hr]
      | _ =>
        simp only [json.operator_subscript_key, if_neg hl] at h
        split at h
        · obtain ⟨r, hr, hv⟩ := written_map_done _ _ _ _ _ h
          rw [hv]
          simp only [node.value, hobj _ _ _ _ _ _ hr]
          rfl
        · exact absurd h (by simp)
  exact ⟨main _ _ (copy_assign_value fuel x), main _ _ (move_assign_value fuel x)⟩

/-- On an empty array the largest index makes the count `i - arr.size() + 1` wrap to
`0`: `insert` appends nothing and there is no element `arr[i]`. -/
theorem index_write_empty_array_wraps :
    (json.operator_subscript_index 5 (2 ^ 64) 0 (.jarray 3 []) (2 ^ 64 - 1)
      (move_assign 5 (.jint 40 1)) 41 ⟨[], []⟩).is_no_element = true := by
  decide!

/-- Pointer level, the chained write `v[a][b] = x` from a Null handle: every release
in it acts on the static `jnull`, so the statement completes with the reclaimer as it
was, and `v` points to a new object whose one entry `a` holds a new object whose one
entry `b` holds the node of `x`. -/
theorem chained_key_write_from_null_done (fuel : Nat) (x : node) (a b : String) (next : Nat)
    (m : memory) (hf : fuel ≠ 0) (h_null : NULL_ADDR ∉ m.freed) :
    json.operator_subscript_key fuel node.null_instance a
        (fun slot n m1 => json.operator_subscript_key fuel slot b (move_assign fuel x) n m1)
        next m
      = .done (.jobject next [(a, .jobject (next + 1) [(b, x)])]) (next + 2) m := by
  have hd : json.dispose_node fuel (some (node.jnull NULL_ADDR)) m = .returned m :=
    dispose_node_static fuel _ m rfl hf
  have ha : (node.jnull NULL_ADDR).addr ∉ m.freed := h_null
  simp only [json.operator_subscript_key, node.null_instance, if_neg ha, hd,
    object_write_through, move_assign, written.map]

end mq
